import Mathlib

/-!
Verification development for the PicView derivative-media cache and generation
pipeline.  The definitions below are a shallow embedding of the JavaScript
source (`server/media-preprocess.js`, `server/index.js`, `server/dng-worker.js`):
pure helpers become Lean functions, stateful cache operations become explicit
state passing over an abstract file-system map, and external tools (sharp,
ffmpeg, the RAW worker) become oracle inputs that fix their outcomes.
JavaScript numbers are modelled as `Nat`/`Int` where the code only handles
integral values, and as `ℚ` for the auto-level scale/offset arithmetic.
-/

namespace PicView


/-! ## String helpers modelling the JavaScript string operations used -/

/-- JS `String.prototype.toLowerCase` restricted to ASCII (all strings compared
by the code are ASCII). -/
def lowerStr (s : String) : String := ⟨s.data.map Char.toLower⟩

/-- JS `String.prototype.toUpperCase` restricted to ASCII. -/
def upperStr (s : String) : String := ⟨s.data.map Char.toUpper⟩

/-- Whether `p` occurs at the head of `l`. -/
def headMatch : List Char → List Char → Bool
  | [], _ => true
  | _ :: _, [] => false
  | p :: ps, c :: cs => p == c && headMatch ps cs

/-- Whether `pat` occurs somewhere in `l`. -/
def occursIn (pat : List Char) : List Char → Bool
  | [] => headMatch pat []
  | c :: cs => headMatch pat (c :: cs) || occursIn pat cs

/-- JS `String.prototype.includes`. -/
def strIncludes (s pat : String) : Bool := occursIn pat.data s.data

/-- Index of the last occurrence of `c`, if any. -/
def lastIdxOf (c : Char) : List Char → Option Nat
  | [] => none
  | x :: xs =>
    match lastIdxOf c xs with
    | some i => some (i + 1)
    | none => if x = c then some 0 else none

/-- Node `path.extname` on a basename (no directory separators): the part of
the name from its last dot on, empty when there is no dot, when the dot is the
first character, or for the special name `..`. -/
def extnameOf (name : String) : String :=
  if name.data = ['.', '.'] then ⟨[]⟩ else
  match lastIdxOf '.' name.data with
  | some i => if i = 0 then ⟨[]⟩ else ⟨name.data.drop i⟩
  | none => ⟨[]⟩

/-- Node `path.parse(name).name` on a basename: the name with its extension
(per `extnameOf`) removed. -/
def parseNameOf (name : String) : String :=
  if name.data = ['.', '.'] then name else
  match lastIdxOf '.' name.data with
  | some i => if i = 0 then name else ⟨name.data.take i⟩
  | none => name

/-- Number of `/` separators in a string (used to separate original-file paths
from cache-folder paths). -/
def slashCount (s : String) : Nat := s.data.count '/'

/-! ## Retry/backoff policy (`withRetries`, media-preprocess.js lines 10-52) -/

/-- A JavaScript error as inspected by `isRetryableIoError`: `code` models
`String(err?.code || '')` (empty when the error has no code) and `message`
models `String(err?.message || err || '')`. -/
structure JsError where
  code : String
  message : String
deriving DecidableEq, Repr

/-- `isRetryableIoError` from media-preprocess.js: retryable error codes, or
message substrings known to be transient for libvips/sharp. -/
def isRetryableIoError (e : JsError) : Bool :=
  let c := upperStr e.code
  if c == "ENOSPC" || c == "EIO" || c == "EBUSY" || c == "EPERM" || c == "UNKNOWN" then
    true
  else
    let m := lowerStr e.message
    strIncludes m "out of disk space" || strIncludes m "output file write error" ||
      strIncludes m "the device does not recognize the command"

/-- The backoff delay slept before retrying after a failure of attempt
`attempt`: `Math.min(maxDelayMs, baseDelayMs * Math.pow(2, attempt - 1))`. -/
def retryDelay (baseDelayMs maxDelayMs attempt : Nat) : Nat :=
  min maxDelayMs (baseDelayMs * 2 ^ (attempt - 1))

/-- The `withRetries` loop.  `fn attempt` is the outcome of the wrapped
operation on the given (1-based) attempt; `fuel` counts the remaining loop
iterations and `last` is the `lastErr` variable.  Returns the overall outcome
(`.error none` models `throw lastErr` with `lastErr` still `undefined`),
the list of delays slept, and the number of attempts made. -/
def withRetriesGo {α : Type} (fn : Nat → Except JsError α) (attempts baseDelayMs maxDelayMs : Nat) :
    Nat → Nat → Option JsError → Except (Option JsError) α × List Nat × Nat
  | _, 0, last => (.error last, [], 0)
  | attempt, fuel + 1, _ =>
    match fn attempt with
    | .ok v => (.ok v, [], 1)
    | .error e =>
      if !isRetryableIoError e || attempt == attempts then (.error (some e), [], 1)
      else
        let d := retryDelay baseDelayMs maxDelayMs attempt
        let r := withRetriesGo fn attempts baseDelayMs maxDelayMs (attempt + 1) fuel (some e)
        (r.1, d :: r.2.1, r.2.2 + 1)

/-- `withRetries(fn, { attempts, baseDelayMs, maxDelayMs })`. -/
def withRetries {α : Type} (fn : Nat → Except JsError α) (attempts baseDelayMs maxDelayMs : Nat) :
    Except (Option JsError) α × List Nat × Nat :=
  withRetriesGo fn attempts baseDelayMs maxDelayMs 1 attempts none

/-- Default option values of `withRetries`. -/
def defaultAttempts : Nat := 3

def defaultBaseDelayMs : Nat := 750

def defaultMaxDelayMs : Nat := 10000

/-- `writeJpegWithRetries` wraps one write attempt (pipeline `.toFile` plus the
zero-byte guard) in `withRetries` with `attempts: 5` and default delays. -/
def writeJpegWithRetriesPolicy {α : Type} (fn : Nat → Except JsError α) :
    Except (Option JsError) α × List Nat × Nat :=
  withRetries fn 5 defaultBaseDelayMs defaultMaxDelayMs

/-! ## Cache path resolver (`getImageCachePath`, media-preprocess.js lines
156-159 and server/index.js lines 27-30) -/

/-- The cache directory for a folder, with a trailing separator:
`path.join(photosDir, folderName, cacheFolderName)` followed by `/`. -/
def cacheDirStr (photosDir cacheFolderName folderName : String) : String :=
  photosDir ++ "/" ++ folderName ++ "/" ++ cacheFolderName ++ "/"

/-- `getImageCachePath(folderName, imageName, variant)`:
`path.join(photosDir, folderName, cacheFolderName, base + '_' + variant + '.jpg')`
with `base = path.parse(imageName).name`. -/
def getImageCachePath (photosDir cacheFolderName folderName imageName variant : String) : String :=
  cacheDirStr photosDir cacheFolderName folderName ++
    (parseNameOf imageName ++ "_" ++ variant ++ ".jpg")

/-- The variant descriptor built by the callers of `getImageCachePath`:
`widthInt ? ('w' + widthInt) : 'full'` (a width of `0` is falsy in JS and also
yields `full`). -/
def variantOf (widthInt : Option Nat) : String :=
  match widthInt with
  | some n => if n = 0 then "full" else "w" ++ Nat.repr n
  | none => "full"

/-! Injectivity of the decimal numeral `Nat.repr`, needed to show that
distinct requested widths give distinct variant suffixes. -/

/-- Numeric value of a decimal digit character. -/
def digitVal (c : Char) : Nat := c.toNat - 48

/-- Value of a decimal digit string, most significant digit first. -/
def digitsVal : List Char → Nat
  | [] => 0
  | c :: cs => digitVal c * 10 ^ cs.length + digitsVal cs

/-! ## RAW decode worker (`toRawPayload`, server/dng-worker.js lines 77-128) -/

/-- The result of `LibRaw.createMemoryImage()` as consumed by `toRawPayload`.
`width`/`height` are `none` when the JS number is not finite; `bits` is `none`
when the field is absent (`imageData.bits || 8` also maps a present `0` to 8);
`data` is the pixel byte buffer. -/
structure RawImageData where
  width : Option Int
  height : Option Int
  colors : Int
  bits : Option Int
  data : List Nat
deriving DecidableEq, Repr

/-- Metadata sidecar written next to the raw payload. -/
structure RawMeta where
  width : Int
  height : Int
  channels : Nat
  bits : Int
  endian : String
deriving DecidableEq, Repr

/-- The effective bit depth `imageData.bits || 8` (absent or `0` is falsy). -/
def effBits (d : RawImageData) : Int :=
  match d.bits with
  | none => 8
  | some b => if b = 0 then 8 else b

/-- `bits > 8 ? 2 : 1`. -/
def bytesPerSample (d : RawImageData) : Nat := if 8 < effBits d then 2 else 1

/-- The `Buffer.copy` loop dropping the alpha channel: for each pixel, keep the
first `3 * bytesPerSample` of its `4 * bytesPerSample` bytes. -/
def stripAlpha (data : List Nat) (pxCount bps : Nat) : List Nat :=
  ((List.range pxCount).map (fun i => (data.drop (i * 4 * bps)).take (3 * bps))).join

/-- `toRawPayload` from dng-worker.js: validate dimensions, channel count, bit
depth and buffer length; strip alpha when `colors = 4`; return the metadata
(with `channels` fixed at 3) and the payload.  `.error` models the thrown
exceptions, which the worker main turns into a non-zero exit. -/
def toRawPayload (d : RawImageData) : Except String (RawMeta × List Nat) :=
  if d.data.length = 0 then .error "createMemoryImage returned empty data"
  else if d.width = none ∨ d.height = none then .error "Invalid dimensions"
  else
    let w := d.width.getD 0
    let h := d.height.getD 0
    if w ≤ 0 ∨ h ≤ 0 then .error "Invalid dimensions"
    else if ¬(d.colors = 3 ∨ d.colors = 4) then .error "Unsupported colors"
    else if effBits d ≤ 0 ∨ 16 < effBits d then .error "Unsupported bit depth"
    else
      let bps : Nat := bytesPerSample d
      let expected : Int := w * h * d.colors * bps
      if (d.data.length : Int) < expected then .error "Unexpected data length"
      else
        let payload :=
          if d.colors = 3 then d.data else stripAlpha d.data (w.toNat * h.toNat) bps
        .ok ({ width := w, height := h, channels := 3, bits := effBits d, endian := "LE" },
          payload)

/-- Exit code of the worker main: 0 on success, 1 when decoding threw. -/
def workerExitCode {α : Type} (r : Except String α) : Nat :=
  match r with
  | .ok _ => 0
  | .error _ => 1

/-- The validation condition of `toRawPayload`, stated as in the spec. -/
def validRaw (d : RawImageData) : Prop :=
  ∃ w h, d.width = some w ∧ d.height = some h ∧ 0 < w ∧ 0 < h ∧
    (d.colors = 3 ∨ d.colors = 4) ∧ 0 < effBits d ∧ effBits d ≤ 16 ∧
    w * h * d.colors * (bytesPerSample d : Int) ≤ (d.data.length : Int)

/-! ## Auto-level estimator (`getAutoLevelsParamsFromRaw`, media-preprocess.js
lines 78-129).  The greyscale 256x256 downsample produced by sharp is the
input `sample`; the JS float products `total * 0.01` and `total * 0.99` under
`Math.floor` agree with the integer divisions `total / 100` and
`total * 99 / 100` for every attainable sample size (≤ 65536). -/

/-- Parameters returned by the estimator; `scale`/`offset` are modelled as
exact rationals. -/
structure AutoLevelParams where
  scale : ℚ
  offset : ℚ
  low : Nat
  high : Nat
deriving DecidableEq, Repr

/-- 256-bin histogram of the greyscale sample. -/
def histOf (sample : List (Fin 256)) (i : Nat) : Nat :=
  sample.countP (fun b => b.val == i)

/-- Cumulative histogram count strictly below bin `i` (the loop's `cum` at the
start of iteration `i`). -/
def cumB (h : Nat → Nat) : Nat → Nat
  | 0 => 0
  | i + 1 => cumB h i + h i

/-- The histogram scan loop: starting at bin `i` with cumulative count `c`,
return the first bin whose inclusive cumulative count reaches `target`
(`none` when the loop finishes without breaking); `fuel` is the number of bins
left to visit. -/
def scanBreak (h : Nat → Nat) (target : Nat) : Nat → Nat → Nat → Option Nat
  | _, _, 0 => none
  | i, c, fuel + 1 =>
    let c2 := c + h i
    if target ≤ c2 then some i else scanBreak h target (i + 1) c2 fuel

/-- `Math.floor(total * 0.01)`. -/
def lowTarget (sample : List (Fin 256)) : Nat := sample.length / 100

/-- `Math.floor(total * 0.99)`. -/
def highTarget (sample : List (Fin 256)) : Nat := sample.length * 99 / 100

/-- `scale = (targetHigh - targetLow) / (high - low)` with targets 245 and 8. -/
def alScale (low high : Nat) : ℚ := (245 - 8) / ((high : ℚ) - (low : ℚ))

/-- `offset = targetLow - low * scale`. -/
def alOffset (low high : Nat) : ℚ := 8 - (low : ℚ) * alScale low high

/-- `getAutoLevelsParamsFromRaw`, after the greyscale downsample. -/
def getAutoLevelsParams (sample : List (Fin 256)) : Option AutoLevelParams :=
  if sample.length = 0 then none
  else
    let low0 := (scanBreak (histOf sample) (lowTarget sample) 0 0 256).getD 0
    let high0 := (scanBreak (histOf sample) (highTarget sample) 0 0 256).getD 255
    let low := low0 - 2
    let high := min 255 (high0 + 2)
    if high ≤ low + 5 then none
    else some ⟨alScale low high, alOffset low high, low, high⟩

/-! ## Video transcode coordinator (`ensureVideoTranscode`, media-preprocess.js
lines 539-648).  One call is modelled as a pure function of the observed
file-system state and the outcomes of the external steps (ffprobe, the
exclusive lock create, the retried ffmpeg run); it returns whether the output
path was returned, the ordered trace of effects performed, and the final state
of the output file.  `spawnFfmpeg` stands for the (retried) ffmpeg invocation:
a trace without it is a call that never started a transcode subprocess. -/

/-- Result of `fs.readJson(failPath)`: a parse failure, or a record whose `at`
field is the given number (`none` when `at` is not a number, which the code
maps to 0). -/
inductive FailRead
  | parseErr
  | fields (atVal : Option Int)
deriving DecidableEq, Repr

/-- Observed state and oracle outcomes for one `ensureVideoTranscode` call. -/
structure VtIn where
  outSize : Option Nat
  skipExists : Bool
  srcSize : Option Nat
  minBytes : Option Int
  codec : Option String
  lockExists : Bool
  failRead : Option FailRead
  nowMs : Int
  lockCreateOk : Bool
  ffmpegOk : Bool
  tempSize : Option Nat
deriving DecidableEq, Repr

inductive VtEvent
  | probeCodec
  | writeSkip (reason : String)
  | createLock
  | spawnFfmpeg
  | moveToOut
  | writeFail
  | removeFailRecord
  | removeLock
  | removeTemp
deriving DecidableEq, Repr

/-- `isNonEmptyFile` on a file-size observation. -/
def isNonEmptySize : Option Nat → Bool
  | some n => decide (0 < n)
  | none => false

/-- `deleteIfZeroByte` on a file-size observation. -/
def deleteIfZeroSize : Option Nat → Option Nat
  | some 0 => none
  | x => x

/-- The fixed 10-minute failure backoff window. -/
def transcodeBackoffMs : Int := 10 * 60 * 1000

/-- The small-source skip condition `minBytes > 0 && st.size <= minBytes`
(false when `fs.stat` threw or the threshold is NaN). -/
def vtSmallSkip (s : VtIn) : Bool :=
  match s.srcSize, s.minBytes with
  | some sz, some mb => decide (0 < mb) && decide ((sz : Int) ≤ mb)
  | _, _ => false

/-- The probed-codec skip condition `codec === 'hevc' || codec === 'h265'`. -/
def vtCodecSkip (s : VtIn) : Bool :=
  s.codec == some "hevc" || s.codec == some "h265"

/-- The failure-backoff suppression: a failure record exists, parsed, and
`Date.now() - lastFailAt < backoffMs`. -/
def vtBackoffActive (s : VtIn) : Bool :=
  match s.failRead with
  | some (.fields atVal) => decide (s.nowMs - atVal.getD 0 < transcodeBackoffMs)
  | some .parseErr => false
  | none => false

/-- `ensureVideoTranscode`: returns (output path returned?, effect trace,
final output-file state). -/
def ensureVideoTranscode (s : VtIn) : Bool × List VtEvent × Option Nat :=
  if isNonEmptySize s.outSize then (true, [], s.outSize)
  else
    let out1 := deleteIfZeroSize s.outSize
    if s.skipExists then (false, [], out1)
    else if vtSmallSkip s then (false, [.writeSkip "small"], out1)
    else if vtCodecSkip s then (false, [.probeCodec, .writeSkip "already-hevc"], out1)
    else if s.lockExists then (false, [.probeCodec], out1)
    else if vtBackoffActive s then (false, [.probeCodec], out1)
    else if ¬ s.lockCreateOk then (false, [.probeCodec], out1)
    else if ¬ s.ffmpegOk then
      (false, [.probeCodec, .createLock, .spawnFfmpeg, .writeFail, .removeLock, .removeTemp],
        out1)
    else
      match s.tempSize with
      | none =>
        (false, [.probeCodec, .createLock, .spawnFfmpeg, .writeFail, .removeLock, .removeTemp],
          out1)
      | some 0 =>
        (false, [.probeCodec, .createLock, .spawnFfmpeg, .writeFail, .removeLock, .removeTemp],
          out1)
      | some (t + 1) =>
        (true, [.probeCodec, .createLock, .spawnFfmpeg, .moveToOut, .removeFailRecord,
          .removeLock, .removeTemp], some (t + 1))

/-! ## Image variant pipeline (`resolveImageSource` / `ensureImageVariant`,
media-preprocess.js lines 277-485).  The file system is an abstract map from
path strings to files (size plus the two magic-byte observations the code
makes); sharp, heic-convert and the DNG worker are oracle inputs fixing the
outcome of each external invocation.  The generation counter counts every
decode/encode invocation (worker run, HEIC conversion, JPEG write), so a call
with count 0 performed no generation work. -/

structure FileInfo where
  size : Nat
  jpegMagic : Bool
  heifMagic : Bool
deriving DecidableEq, Repr

/-- Abstract file system. -/
def FS : Type := String → Option FileInfo

/-- A write at path `p`. -/
def fsSet (fs : FS) (p : String) (fi : FileInfo) : FS :=
  fun q => if q = p then some fi else fs q

/-- `fs.remove(p)`. -/
def fsDel (fs : FS) (p : String) : FS :=
  fun q => if q = p then none else fs q

/-- `fs.pathExists`. -/
def pathExists (fs : FS) (p : String) : Bool := (fs p).isSome

/-- `isNonEmptyFile`. -/
def isNonEmptyFile (fs : FS) (p : String) : Bool :=
  match fs p with
  | some fi => decide (0 < fi.size)
  | none => false

/-- `isJpegByMagic` (false when the read fails). -/
def isJpegByMagic (fs : FS) (p : String) : Bool :=
  match fs p with
  | some fi => fi.jpegMagic
  | none => false

/-- `looksLikeHeif` (false when the read fails). -/
def looksLikeHeif (fs : FS) (p : String) : Bool :=
  match fs p with
  | some fi => fi.heifMagic
  | none => false

/-- `path.join(photosDir, folderName, name)`. -/
def origP (pd folder name : String) : String := pd ++ "/" ++ folder ++ "/" ++ name

/-- `path.extname(name).toLowerCase()`. -/
def extOfName (name : String) : String := lowerStr (extnameOf name)

inductive SrcKind
  | path
  | heic
deriving DecidableEq, Repr

/-- Errors raised by the image pipeline. -/
inductive MErr
  | notFound
  | writeFail
  | zeroCache
  | heicFail
deriving DecidableEq, Repr

/-- Oracle outcomes for the external operations of one call.  A write outcome
`some n` means the retried write ultimately succeeded leaving a file of `n`
bytes (the code's in-write zero-byte guard makes `n = 0` impossible in
practice; the explicit checks after each write are still modelled); `none`
means it ultimately threw, leaving the destination unchanged. -/
structure ImgOracle where
  workerOk : Bool
  workerRawProduced : Bool
  workerRawSize : Nat
  workerMetaOk : Bool
  dngWriteOk : Bool
  dngWriteSize : Nat
  dngFallbackOk : Bool
  dngFallbackSize : Nat
  heicOk : Bool
  heicNotHeicMsg : Bool
  heicWriteOk : Bool
  heicWriteSize : Nat
  heicFallbackOk : Bool
  heicFallbackSize : Nat
  mainWriteOk : Bool
  mainWriteSize : Nat
deriving DecidableEq, Repr

/-- The catch of the DNG worker try block (lines 373-389): encode from the
original via sharp; a failure here does propagate, as `writeFail` or, for a
zero-byte result, `zeroCache`. -/
def dngFallback (o : ImgOracle) (fs : FS) (F : String) (g : Nat) :
    Except MErr (String × SrcKind) × FS × Nat :=
  if ¬ o.dngFallbackOk then (.error .writeFail, fs, g + 1)
  else if isNonEmptyFile (fsSet fs F ⟨o.dngFallbackSize, true, false⟩) F then
    (.ok (F, .path), fsSet fs F ⟨o.dngFallbackSize, true, false⟩, g + 1)
  else (.error .zeroCache, fsDel (fsSet fs F ⟨o.dngFallbackSize, true, false⟩) F, g + 1)

/-- The DNG worker try block of `resolveImageSource` (lines 309-389): run the
worker (which writes the `.raw`/`.raw.json` sidecars), check the sidecars,
encode the full-size JPEG, check it, and clean up; every throw inside the try
is caught and falls back to `dngFallback` — the worker failure itself is
logged, never raised. -/
def workerRawStep (o : ImgOracle) (fs : FS) (F : String) : FS :=
  if o.workerRawProduced then fsSet fs (F ++ ".raw") ⟨o.workerRawSize, false, false⟩ else fs

def workerSidecars (o : ImgOracle) (fs : FS) (F : String) : FS :=
  if o.workerMetaOk then
    fsSet (workerRawStep o fs F) (F ++ ".raw" ++ ".json") ⟨1, false, false⟩
  else workerRawStep o fs F

def dngGenerate (o : ImgOracle) (fs : FS) (F : String) :
    Except MErr (String × SrcKind) × FS × Nat :=
  if ¬ o.workerOk then dngFallback o fs F 1
  else if ¬ pathExists (workerSidecars o fs F) (F ++ ".raw") then
    dngFallback o (workerSidecars o fs F) F 1
  else if ¬ pathExists (workerSidecars o fs F) (F ++ ".raw" ++ ".json") then
    dngFallback o (workerSidecars o fs F) F 1
  else
    if ¬ o.dngWriteOk then dngFallback o (workerSidecars o fs F) F 2
    else if ¬ isNonEmptyFile
        (fsSet (workerSidecars o fs F) F ⟨o.dngWriteSize, true, false⟩) F then
      dngFallback o
        (fsDel (fsSet (workerSidecars o fs F) F ⟨o.dngWriteSize, true, false⟩) F) F 2
    else (.ok (F, .path),
      fsDel (fsDel (fsSet (workerSidecars o fs F) F ⟨o.dngWriteSize, true, false⟩)
        (F ++ ".raw")) (F ++ ".raw" ++ ".json"), 2)

/-- The sibling JPEG candidates checked for a `.dng` asset. -/
def jpgSib (pd folder name : String) : String :=
  origP pd folder (parseNameOf name ++ ".jpg")

def jpegSib (pd folder name : String) : String :=
  origP pd folder (parseNameOf name ++ ".jpeg")

/-- The `full`-variant cache path a `.dng` asset is rendered to. -/
def fullCacheP (pd cf folder name : String) : String :=
  getImageCachePath pd cf folder name "full"

/-- Remove an existing (hence empty or corrupt at the call sites) file before
regenerating: `if (await fs.pathExists(p)) await fs.remove(p)`. -/
def purgeEmpty (fs : FS) (p : String) : FS :=
  if pathExists fs p then fsDel fs p else fs

/-- `resolveImageSource(folderName, imageName)`: outcome, resulting file
system, and number of decode/encode invocations. -/
def resolveImageSource (pd cf : String) (o : ImgOracle) (fs : FS) (folder name : String) :
    Except MErr (String × SrcKind) × FS × Nat :=
  if extOfName name = ".heic" ∨ extOfName name = ".heif" then
    (.ok (origP pd folder name, .heic), fs, 0)
  else if extOfName name ≠ ".dng" then (.ok (origP pd folder name, .path), fs, 0)
  else if pathExists fs (jpgSib pd folder name) then (.ok (jpgSib pd folder name, .path), fs, 0)
  else if pathExists fs (jpegSib pd folder name) then
    (.ok (jpegSib pd folder name, .path), fs, 0)
  else if isNonEmptyFile fs (fullCacheP pd cf folder name) then
    (.ok (fullCacheP pd cf folder name, .path), fs, 0)
  else dngGenerate o (purgeEmpty fs (fullCacheP pd cf folder name)) (fullCacheP pd cf folder name)

/-- The small-original shortcut of `ensureImageVariant` (lines 404-418): no
width requested, a `.jpg`/`.jpeg` extension, and a non-empty original smaller
than 1 MB whose first bytes are the JPEG magic. -/
def smallJpegShortcut (fs : FS) (absOriginal name : String) (w : Option Nat) : Bool :=
  w == none && (extOfName name == ".jpg" || extOfName name == ".jpeg") &&
    (match fs absOriginal with
     | some fi => decide (0 < fi.size) && decide (fi.size < 1000000) && fi.jpegMagic
     | none => false)

/-- The catch of the HEIC decode try (lines 453-467): when the error reports
a non-HEIC input, or the source sniffs as a JPEG, re-encode the source
directly with sharp; otherwise rethrow. -/
def heicCatch (o : ImgOracle) (fs : FS) (src cachePath : String) (g : Nat) (notHeic : Bool)
    (orig : MErr) : Except MErr Unit × FS × Nat :=
  if notHeic || isJpegByMagic fs src then
    if ¬ o.heicFallbackOk then (.error .writeFail, fs, g + 1)
    else (.ok (), fsSet fs cachePath ⟨o.heicFallbackSize, true, false⟩, g + 1)
  else (.error orig, fs, g)

/-- The HEIC branch of `ensureImageVariant` (lines 443-468): convert in
memory, encode to the cache path; failures of either step go through
`heicCatch` (a write error never carries the `not a heic` message). -/
def heicTry (o : ImgOracle) (fs : FS) (src cachePath : String) :
    Except MErr Unit × FS × Nat :=
  if ¬ o.heicOk then heicCatch o fs src cachePath 1 o.heicNotHeicMsg .heicFail
  else if ¬ o.heicWriteOk then heicCatch o fs src cachePath 2 false .writeFail
  else (.ok (), fsSet fs cachePath ⟨o.heicWriteSize, true, false⟩, 2)

/-- `widthInt` truthiness: a width of 0 (or a NaN parse, modelled as `none`)
is falsy in JS. -/
def widthNorm : Option Nat → Option Nat
  | some 0 => none
  | x => x

/-- The extension sniff of lines 424-429: a `path` source that looks like
HEIF is treated as HEIC. -/
def sourceKindOf (fs : FS) (k0 : SrcKind) (src : String) : SrcKind :=
  if k0 = .path && looksLikeHeif fs src then .heic else k0

/-- The generation step of `ensureImageVariant` (lines 439-477): the HEIC
branch, or the plain sharp re-encode of the source into the cache path. -/
def genStep (o : ImgOracle) (fs : FS) (kind : SrcKind) (src cachePath : String) :
    Except MErr Unit × FS × Nat :=
  if kind = .heic then heicTry o fs src cachePath
  else if ¬ o.mainWriteOk then (.error .writeFail, fs, 1)
  else (.ok (), fsSet fs cachePath ⟨o.mainWriteSize, true, false⟩, 1)

/-- Lines 424-485 of `ensureImageVariant`, after the source is resolved:
return a present cache entry, otherwise purge any empty one, generate, and
verify the result is non-empty. -/
def afterResolve (o : ImgOracle) (fs1 : FS) (g1 : Nat) (src : String) (k0 : SrcKind)
    (cachePath : String) : Except MErr String × FS × Nat :=
  if isNonEmptyFile fs1 cachePath then (.ok cachePath, fs1, g1)
  else
    match genStep o (purgeEmpty fs1 cachePath) (sourceKindOf fs1 k0 src) src cachePath with
    | (.error e, fs3, g2) => (.error e, fs3, g1 + g2)
    | (.ok _, fs3, g2) =>
      if isNonEmptyFile fs3 cachePath then (.ok cachePath, fs3, g1 + g2)
      else (.error .zeroCache, fsDel fs3 cachePath, g1 + g2)

/-- `ensureImageVariant(fullPath, widthInt)` with `fullPath = folder + '/' +
name`.  Returns the outcome (`.ok` carries the returned path), the resulting
file system, and the generation count. -/
def ensureImageVariant (pd cf : String) (o : ImgOracle) (fs : FS) (folder name : String)
    (widthInt : Option Nat) : Except MErr String × FS × Nat :=
  if ¬ pathExists fs (origP pd folder name) then (.error .notFound, fs, 0)
  else if smallJpegShortcut fs (origP pd folder name) name (widthNorm widthInt) then
    (.ok (origP pd folder name), fs, 0)
  else
    match resolveImageSource pd cf o fs folder name with
    | (.error e, fs1, g1) => (.error e, fs1, g1)
    | (.ok (src, k0), fs1, g1) =>
      afterResolve o fs1 g1 src k0
        (getImageCachePath pd cf folder name (variantOf (widthNorm widthInt)))

/-! ## Video thumbnails (`ensureVideoThumbnail`, media-preprocess.js lines
487-521) and the image-serving route's cached-file check (server/index.js
lines 474-477). -/

/-- `deleteIfZeroByte` as a file-system transformation. -/
def deleteIfZeroByteFs (fs : FS) (p : String) : FS :=
  match fs p with
  | some fi => if fi.size = 0 then fsDel fs p else fs
  | none => fs

/-- The retried ffmpeg frame-grab loop of `ensureVideoThumbnail` (3 attempts).
`o attempt` is the attempt's outcome: `.ok n` means ffmpeg wrote an `n`-byte
thumbnail, `.error e` that the invocation threw `e` (the thumbnail path is
then left as it was).  A zero-byte result is deleted and aborts the loop with
a non-retryable error, exactly as the code's thrown `Generated 0-byte output`
does.  Returns the result, the file system, and the number of ffmpeg runs. -/
def thumbLoop (o : Nat → Except JsError Nat) (fs : FS) (T : String) :
    Nat → Nat → Option String × FS × Nat
  | _, 0 => (none, fs, 0)
  | attempt, fuel + 1 =>
    match o attempt with
    | .ok n =>
      if n = 0 then (none, fsDel (fsSet fs T ⟨0, true, false⟩) T, 1)
      else (some T, fsSet fs T ⟨n, true, false⟩, 1)
    | .error e =>
      if ¬ isRetryableIoError e ∨ attempt = 3 then (none, fs, 1)
      else
        ((thumbLoop o fs T (attempt + 1) fuel).1, (thumbLoop o fs T (attempt + 1) fuel).2.1,
          (thumbLoop o fs T (attempt + 1) fuel).2.2 + 1)

/-- `ensureVideoThumbnail`, with `T` the thumbnail cache path: a present
non-empty thumbnail is returned as-is; a zero-byte one is deleted; otherwise
ffmpeg is retried up to 3 times, and on final failure `null` is returned
rather than raising. -/
def ensureVideoThumbnail (o : Nat → Except JsError Nat) (fs : FS) (T : String) :
    Option String × FS × Nat :=
  if isNonEmptyFile fs T then (some T, fs, 0)
  else thumbLoop o (deleteIfZeroByteFs fs T) T 1 3

/-- The cached-file check of the `/api/image/*` route (server/index.js lines
474-477): any existing file at the cache path is served as-is, with no size
check. -/
def apiImageCachedResponse (fs : FS) (cachePath : String) : Option String :=
  if pathExists fs cachePath then some cachePath else none

theorem strData_append (a b : String) : (a ++ b).data = a.data ++ b.data := by
  cases a; cases b; rfl

theorem slashCount_append (a b : String) :
    slashCount (a ++ b) = slashCount a + slashCount b := by
  simp [slashCount, strData_append, List.count_append]

theorem withRetriesGo_calls_le {α : Type} (fn : Nat → Except JsError α)
    (attempts b m : Nat) :
    ∀ fuel attempt last, (withRetriesGo fn attempts b m attempt fuel last).2.2 ≤ fuel := by
  intro fuel
  induction fuel with
  | zero => intro attempt last; simp [withRetriesGo]
  | succ n ih =>
    intro attempt last
    simp only [withRetriesGo]
    cases fn attempt with
    | ok v => simp
    | error e =>
      by_cases hc : (!isRetryableIoError e || attempt == attempts) = true
      · simp [hc]
      · simp only [hc, if_false]
        have := ih (attempt + 1) (some e)
        simpa using Nat.succ_le_succ this

theorem withRetriesGo_retry {α : Type} (fn : Nat → Except JsError α)
    (attempts b m attempt fuel : Nat) (last : Option JsError)
    (e : JsError) (he : fn attempt = .error e) (hre : isRetryableIoError e = true)
    (hne : (attempt == attempts) = false) :
    withRetriesGo fn attempts b m attempt (fuel + 1) last =
      ((withRetriesGo fn attempts b m (attempt + 1) fuel (some e)).1,
        retryDelay b m attempt :: (withRetriesGo fn attempts b m (attempt + 1) fuel (some e)).2.1,
        (withRetriesGo fn attempts b m (attempt + 1) fuel (some e)).2.2 + 1) := by
  simp only [withRetriesGo, he, hre, hne, Bool.not_true, Bool.false_or, Bool.false_eq_true,
    if_false]

theorem withRetriesGo_spec {α : Type} (fn : Nat → Except JsError α) (attempts b m : Nat) :
    ∀ fuel attempt last k, attempt + fuel = attempts + 1 → attempt ≤ k → k ≤ attempts →
    (∀ j, attempt ≤ j → j < k → ∃ e, fn j = .error e ∧ isRetryableIoError e = true) →
    ((∀ v, fn k = .ok v →
      withRetriesGo fn attempts b m attempt fuel last =
        (.ok v, (List.range' attempt (k - attempt)).map (retryDelay b m), k - attempt + 1)) ∧
     (∀ e, fn k = .error e → isRetryableIoError e = false →
      withRetriesGo fn attempts b m attempt fuel last =
        (.error (some e), (List.range' attempt (k - attempt)).map (retryDelay b m), k - attempt + 1)) ∧
     (∀ e, fn k = .error e → k = attempts →
      withRetriesGo fn attempts b m attempt fuel last =
        (.error (some e), (List.range' attempt (k - attempt)).map (retryDelay b m), k - attempt + 1))) := by
  intro fuel
  induction fuel with
  | zero =>
    intro attempt last k hinv hak hka _
    omega
  | succ n ih =>
    intro attempt last k hinv hak hka hpre
    by_cases hk : attempt = k
    · subst hk
      refine ⟨?_, ?_, ?_⟩
      · intro v hv
        simp [withRetriesGo, hv]
      · intro e he hre
        simp [withRetriesGo, he, hre]
      · intro e he hea
        have : (attempt == attempts) = true := by simp [hea]
        simp [withRetriesGo, he, this]
    · have hlt : attempt < k := lt_of_le_of_ne hak hk
      obtain ⟨e, he, hre⟩ := hpre attempt le_rfl hlt
      have hne : (attempt == attempts) = false := by
        simp only [beq_eq_false_iff_ne, ne_eq]
        omega
      have ihs := ih (attempt + 1) (some e) k (by omega) (by omega) hka
        (fun j h1 h2 => hpre j (by omega) h2)
      have hrange : List.range' attempt (k - attempt) =
          attempt :: List.range' (attempt + 1) (k - (attempt + 1)) := by
        have h1 : k - attempt = (k - (attempt + 1)) + 1 := by omega
        rw [h1, List.range'_succ]
      have hstep := withRetriesGo_retry fn attempts b m attempt n last e he hre hne
      refine ⟨?_, ?_, ?_⟩
      · intro v hv
        have h2 := ihs.1 v hv
        rw [hstep, h2, hrange]
        simp only [List.map_cons, Prod.mk.injEq, true_and, and_true]
        omega
      · intro e2 he2 hre2
        have h2 := ihs.2.1 e2 he2 hre2
        rw [hstep, h2, hrange]
        simp only [List.map_cons, Prod.mk.injEq, true_and, and_true]
        omega
      · intro e2 he2 hea
        have h2 := ihs.2.2 e2 he2 hea
        rw [hstep, h2, hrange]
        simp only [List.map_cons, Prod.mk.injEq, true_and, and_true]
        omega

/-- C6: the retry combinator attempts the wrapped operation at most `attempts`
times (5 for image cache writes via `writeJpegWithRetriesPolicy`, default 3
elsewhere); when attempts `1..k-1` fail retryably, it sleeps exactly
`min(maxDelayMs, baseDelayMs * 2 ^ (attempt - 1))` after each such failure; a
success at attempt `k` returns the operation's result unchanged, while a
non-retryable failure at `k`, or a failure on the final attempt, propagates
that error to the caller. -/
theorem claim_C6_retry_policy {α : Type} (fn : Nat → Except JsError α)
    (attempts b m k : Nat) (hk1 : 1 ≤ k) (hka : k ≤ attempts)
    (hpre : ∀ j, 1 ≤ j → j < k → ∃ e, fn j = .error e ∧ isRetryableIoError e = true) :
    (withRetries fn attempts b m).2.2 ≤ attempts ∧
    (writeJpegWithRetriesPolicy fn).2.2 ≤ 5 ∧
    defaultAttempts = 3 ∧
    (∀ v, fn k = .ok v →
      withRetries fn attempts b m =
        (.ok v, (List.range' 1 (k - 1)).map (retryDelay b m), k)) ∧
    (∀ e, fn k = .error e → isRetryableIoError e = false →
      withRetries fn attempts b m =
        (.error (some e), (List.range' 1 (k - 1)).map (retryDelay b m), k)) ∧
    (∀ e, fn k = .error e → k = attempts →
      withRetries fn attempts b m =
        (.error (some e), (List.range' 1 (k - 1)).map (retryDelay b m), k)) := by
  have hmain := withRetriesGo_spec fn attempts b m attempts 1 none k (by omega) hk1 hka
    (fun j h1 h2 => hpre j h1 h2)
  have hk' : k - 1 + 1 = k := by omega
  refine ⟨withRetriesGo_calls_le fn attempts b m attempts 1 none,
    withRetriesGo_calls_le fn 5 defaultBaseDelayMs defaultMaxDelayMs 5 1 none, rfl, ?_, ?_, ?_⟩
  · intro v hv
    have := hmain.1 v hv
    rw [withRetries, this, hk']
  · intro e he hre
    have := hmain.2.1 e he hre
    rw [withRetries, this, hk']
  · intro e he hea
    have := hmain.2.2 e he hea
    rw [withRetries, this, hk']

theorem claim_C6_retry_policy_witness :
    withRetries (fun j => if j = 1 then (.error ⟨"ENOSPC", "x"⟩ : Except JsError Nat) else .ok 7)
        3 100 1000 =
      (.ok 7, [100], 2) := by
  have h := claim_C6_retry_policy
    (fun j => if j = 1 then (.error ⟨"ENOSPC", "x"⟩ : Except JsError Nat) else .ok 7)
    3 100 1000 2 (by omega) (by omega)
    (fun j h1 h2 => by
      have hj : j = 1 := by omega
      subst hj
      exact ⟨⟨"ENOSPC", "x"⟩, rfl, by decide⟩)
  have h2 := h.2.2.2.1 7 rfl
  rw [h2]
  rfl

theorem str_append_cancel_left {a b c : String} (h : a ++ b = a ++ c) : b = c := by
  have hd : a.data ++ b.data = a.data ++ c.data := by
    rw [← strData_append, ← strData_append, h]
  cases b; cases c
  simp only [List.append_cancel_left_eq] at hd
  rw [hd]

theorem str_append_cancel_right {a b c : String} (h : a ++ c = b ++ c) : a = b := by
  have hd : a.data ++ c.data = b.data ++ c.data := by
    rw [← strData_append, ← strData_append, h]
  cases a; cases b
  simp only [List.append_cancel_right_eq] at hd
  rw [hd]

theorem digitVal_digitChar (d : Nat) (h : d < 10) : digitVal (Nat.digitChar d) = d := by
  interval_cases d <;> decide

theorem toDigitsCore_val :
    ∀ fuel n l, n < fuel →
      digitsVal (Nat.toDigitsCore 10 fuel n l) = n * 10 ^ l.length + digitsVal l := by
  intro fuel
  induction fuel with
  | zero => intro n l hn; exact absurd hn (Nat.not_lt_zero n)
  | succ f ih =>
    intro n l hn
    simp only [Nat.toDigitsCore]
    have hd : digitVal (Nat.digitChar (n % 10)) = n % 10 :=
      digitVal_digitChar _ (Nat.mod_lt _ (by norm_num))
    by_cases h0 : n / 10 = 0
    · have hlt : n < 10 := by omega
      have hmod : n % 10 = n := Nat.mod_eq_of_lt hlt
      rw [if_pos h0]
      rw [hmod] at hd
      simp only [digitsVal, hmod, hd]
    · rw [if_neg h0]
      have hlt : n / 10 < f := by
        have h1 : n / 10 < n := Nat.div_lt_self (by omega) (by norm_num)
        omega
      rw [ih (n / 10) (Nat.digitChar (n % 10) :: l) hlt]
      simp only [digitsVal, hd, List.length_cons]
      have hdm : n / 10 * 10 + n % 10 = n := by omega
      calc n / 10 * 10 ^ (l.length + 1) + (n % 10 * 10 ^ l.length + digitsVal l)
          = (n / 10 * 10 + n % 10) * 10 ^ l.length + digitsVal l := by ring
        _ = n * 10 ^ l.length + digitsVal l := by rw [hdm]

theorem digitsVal_repr (n : Nat) : digitsVal (Nat.repr n).data = n := by
  have h : (Nat.repr n).data = Nat.toDigitsCore 10 (n + 1) n [] := rfl
  rw [h, toDigitsCore_val (n + 1) n [] (Nat.lt_succ_self n)]
  simp [digitsVal]

theorem natRepr_inj {m n : Nat} (h : Nat.repr m = Nat.repr n) : m = n := by
  have := congrArg (fun s => digitsVal s.data) h
  simpa [digitsVal_repr] using this

/-- C10: the cache path depends only on the asset's base name (extension
stripped), so two names with the same base collide on the identical cache
path; while for a fixed asset, distinct variant descriptors (and in
particular `w<width>` versus `full`, or two different widths) always give
distinct cache paths. -/
theorem claim_C10_cache_key (pd cf folder name v n1 n2 v1 v2 : String) (w1 w2 : Nat)
    (hbase : parseNameOf n1 = parseNameOf n2) (hv : v1 ≠ v2)
    (hw1 : w1 ≠ 0) (hw2 : w2 ≠ 0) (hww : w1 ≠ w2) :
    getImageCachePath pd cf folder n1 v = getImageCachePath pd cf folder n2 v ∧
    getImageCachePath pd cf folder name v1 ≠ getImageCachePath pd cf folder name v2 ∧
    variantOf (some w1) ≠ variantOf (some w2) ∧
    variantOf (some w1) ≠ variantOf none := by
  refine ⟨by rw [getImageCachePath, getImageCachePath, hbase], ?_, ?_, ?_⟩
  · intro h
    have h1 := str_append_cancel_left h
    have h2 := str_append_cancel_right h1
    exact hv (str_append_cancel_left h2)
  · intro h
    simp only [variantOf, if_neg hw1, if_neg hw2] at h
    exact hww (natRepr_inj (str_append_cancel_left h))
  · intro h
    simp only [variantOf, if_neg hw1] at h
    have hd := congrArg String.data h
    rw [strData_append] at hd
    simp at hd

theorem claim_C10_cache_key_witness :
    getImageCachePath "P" "983db650f7f79bc8e87d9a3ba418aefc" "F" "a.dng" "w300" =
      getImageCachePath "P" "983db650f7f79bc8e87d9a3ba418aefc" "F" "a.png" "w300" ∧
    getImageCachePath "P" "983db650f7f79bc8e87d9a3ba418aefc" "F" "a.dng" "w300" ≠
      getImageCachePath "P" "983db650f7f79bc8e87d9a3ba418aefc" "F" "a.dng" "full" ∧
    variantOf (some 300) ≠ variantOf (some 42) ∧
    variantOf (some 300) ≠ variantOf none :=
  claim_C10_cache_key "P" "983db650f7f79bc8e87d9a3ba418aefc" "F" "a.dng" "w300"
    "a.dng" "a.png" "w300" "full" 300 42 (by decide) (by decide)
    (by decide) (by decide) (by decide)

theorem sum_map_const_nat {α : Type} (l : List α) (c : Nat) :
    (l.map (fun _ => c)).sum = l.length * c := by
  induction l with
  | nil => simp
  | cons a t ih => simp [ih, Nat.succ_mul, Nat.add_comm]

theorem stripAlpha_length (data : List Nat) (px bps : Nat) (hbps : 0 < bps)
    (hlen : px * (4 * bps) ≤ data.length) :
    (stripAlpha data px bps).length = px * (3 * bps) := by
  have hall : ∀ i ∈ List.range px,
      ((data.drop (i * 4 * bps)).take (3 * bps)).length = 3 * bps := by
    intro i hi
    rw [List.mem_range] at hi
    have h1 : (i + 1) * (4 * bps) ≤ px * (4 * bps) :=
      Nat.mul_le_mul_right _ hi
    have h2 : i * 4 * bps + 3 * bps ≤ data.length := by
      have : (i + 1) * (4 * bps) = i * 4 * bps + 4 * bps := by ring
      omega
    simp only [List.length_take, List.length_drop]
    omega
  simp only [stripAlpha, List.length_join, List.map_map]
  have : List.map (List.length ∘ fun i => (data.drop (i * 4 * bps)).take (3 * bps))
      (List.range px) = List.map (fun _ => 3 * bps) (List.range px) :=
    List.map_congr_left (fun i hi => hall i hi)
  rw [this, sum_map_const_nat, List.length_range]

theorem toRawPayload_eq_of_valid (d : RawImageData) (w h : Int)
    (hw : d.width = some w) (hh : d.height = some h)
    (hwpos : 0 < w) (hhpos : 0 < h) (hcol : d.colors = 3 ∨ d.colors = 4)
    (hb1 : 0 < effBits d) (hb2 : effBits d ≤ 16)
    (hlen : w * h * d.colors * (bytesPerSample d : Nat) ≤ (d.data.length : Int)) :
    toRawPayload d =
      .ok ({ width := w, height := h, channels := 3, bits := effBits d, endian := "LE" },
        if d.colors = 3 then d.data
        else stripAlpha d.data (w.toNat * h.toNat) (bytesPerSample d)) := by
  have hbps : 0 < bytesPerSample d := by
    unfold bytesPerSample; split <;> omega
  have hexp0 : (0 : Int) < w * h * d.colors * (bytesPerSample d : Int) := by
    have hc : (0 : Int) < d.colors := by rcases hcol with h3 | h4 <;> omega
    have hb : (0 : Int) < (bytesPerSample d : Int) := by exact_mod_cast hbps
    positivity
  have hne : d.data.length ≠ 0 := by
    intro h0
    rw [h0] at hlen
    simp at hlen
    omega
  unfold toRawPayload
  rw [if_neg hne, if_neg (by simp [hw, hh])]
  simp only [hw, hh, Option.getD_some]
  rw [if_neg (by omega), if_neg (by tauto), if_neg (by omega), if_neg (by omega)]

/-- C9: a decoded buffer is accepted by the RAW worker raw-payload conversion
exactly when width and height are finite and positive, the channel count is 3
or 4, the effective bit depth lies in (0,16], and the buffer holds at least
`width*height*channels*bytesPerSample` bytes; on rejection the worker exits
non-zero; on success the metadata records `channels = 3`, and when the input
had 4 channels the alpha-stripped payload is exactly
`width*height*3*bytesPerSample` bytes. -/
theorem claim_C9_raw_validation (d : RawImageData) :
    ((toRawPayload d).isOk = true ↔ validRaw d) ∧
    (¬ validRaw d → workerExitCode (toRawPayload d) = 1) ∧
    (∀ m p, toRawPayload d = .ok (m, p) → m.channels = 3) ∧
    (∀ m p w h, toRawPayload d = .ok (m, p) → d.colors = 4 →
      d.width = some w → d.height = some h →
      p.length = w.toNat * h.toNat * (3 * bytesPerSample d)) := by
  have hbps : 0 < bytesPerSample d := by
    unfold bytesPerSample; split <;> omega
  have hiff : (toRawPayload d).isOk = true ↔ validRaw d := by
    constructor
    · intro hok
      unfold toRawPayload at hok
      split at hok
      · simp [Except.isOk, Except.toBool] at hok
      · split at hok
        · simp [Except.isOk, Except.toBool] at hok
        · rename_i hne hopt
          push_neg at hopt
          obtain ⟨w, hw⟩ := Option.ne_none_iff_exists'.mp hopt.1
          obtain ⟨h, hh⟩ := Option.ne_none_iff_exists'.mp hopt.2
          rw [hw, hh] at hok
          simp only [Option.getD_some] at hok
          split at hok
          · simp [Except.isOk, Except.toBool] at hok
          · split at hok
            · simp [Except.isOk, Except.toBool] at hok
            · split at hok
              · simp [Except.isOk, Except.toBool] at hok
              · split at hok
                · simp [Except.isOk, Except.toBool] at hok
                · rename_i hwh hcol hbits hexp
                  exact ⟨w, h, hw, hh, by omega, by omega, by tauto, by omega, by omega,
                    by omega⟩
    · rintro ⟨w, h, hw, hh, hwpos, hhpos, hcol, hb1, hb2, hlen⟩
      rw [toRawPayload_eq_of_valid d w h hw hh hwpos hhpos hcol hb1 hb2 hlen]
      rfl
  refine ⟨hiff, ?_, ?_, ?_⟩
  · intro hnv
    cases hok : toRawPayload d with
    | ok v => exact absurd (hiff.mp (by rw [hok]; rfl)) hnv
    | error e => rfl
  · intro m p hok
    have hv : validRaw d := hiff.mp (by rw [hok]; rfl)
    obtain ⟨w, h, hw, hh, hwpos, hhpos, hcol, hb1, hb2, hlen⟩ := hv
    rw [toRawPayload_eq_of_valid d w h hw hh hwpos hhpos hcol hb1 hb2 hlen] at hok
    rw [Except.ok.injEq] at hok
    have := congrArg (fun q => q.1.channels) hok
    simpa using this.symm
  · intro m p w h hok hc4 hw hh
    have hv : validRaw d := hiff.mp (by rw [hok]; rfl)
    obtain ⟨w2, h2, hw2, hh2, hwpos, hhpos, hcol, hb1, hb2, hlen⟩ := hv
    rw [hw] at hw2
    rw [hh] at hh2
    have hww : w = w2 := by injection hw2
    have hhh : h = h2 := by injection hh2
    subst hww
    subst hhh
    rw [toRawPayload_eq_of_valid d w h hw hh hwpos hhpos hcol hb1 hb2 hlen] at hok
    rw [Except.ok.injEq] at hok
    have hp := congrArg (fun q => q.2) hok
    simp only at hp
    rw [hc4, if_neg (by norm_num)] at hp
    rw [← hp]
    have hwn : (w.toNat : Int) = w := Int.toNat_of_nonneg (by omega)
    have hhn : (h.toNat : Int) = h := Int.toNat_of_nonneg (by omega)
    have hlen2 : w.toNat * h.toNat * (4 * bytesPerSample d) ≤ d.data.length := by
      rw [hc4] at hlen
      have hcast : ((w.toNat * h.toNat * (4 * bytesPerSample d) : Nat) : Int) =
          w * h * 4 * (bytesPerSample d : Int) := by
        push_cast [hwn, hhn]
        ring
      have hle : ((w.toNat * h.toNat * (4 * bytesPerSample d) : Nat) : Int) ≤
          (d.data.length : Int) := by
        rw [hcast]
        calc w * h * 4 * (bytesPerSample d : Int)
            = w * h * (4 : Int) * (bytesPerSample d : Nat) := by norm_num
          _ ≤ (d.data.length : Int) := hlen
      exact_mod_cast hle
    exact stripAlpha_length d.data (w.toNat * h.toNat) (bytesPerSample d) hbps hlen2

theorem claim_C9_raw_validation_witness :
    validRaw ⟨some 2, some 1, 4, none, [1, 2, 3, 4, 5, 6, 7, 8]⟩ ∧
    ([1, 2, 3, 5, 6, 7] : List Nat).length =
      (2 : Int).toNat * (1 : Int).toNat *
        (3 * bytesPerSample ⟨some 2, some 1, 4, none, [1, 2, 3, 4, 5, 6, 7, 8]⟩) ∧
    workerExitCode (toRawPayload ⟨none, some 1, 3, none, [1, 2, 3]⟩) = 1 := by
  refine ⟨?_, ?_, ?_⟩
  · exact (claim_C9_raw_validation _).1.mp (by decide)
  · exact (claim_C9_raw_validation _).2.2.2 ⟨2, 1, 3, 8, "LE"⟩ [1, 2, 3, 5, 6, 7] 2 1
      rfl rfl rfl rfl
  · exact (claim_C9_raw_validation _).2.1 (fun ⟨w, h, hw, _⟩ => by simp at hw)

theorem alScale_map (low high : Nat) (h : low < high) :
    alScale low high * (low : ℚ) + alOffset low high = 8 ∧
    alScale low high * (high : ℚ) + alOffset low high = 245 := by
  have hlt : ((low : ℚ)) < ((high : ℚ)) := by exact_mod_cast h
  have hdne : ((high : ℚ)) - ((low : ℚ)) ≠ 0 := sub_ne_zero.mpr (ne_of_gt hlt)
  constructor
  · rw [alOffset]
    ring
  · rw [alOffset, alScale]
    field_simp
    ring

theorem scanBreak_spec (h : Nat → Nat) (t : Nat) :
    ∀ fuel i r, scanBreak h t i (cumB h i) fuel = some r →
      i ≤ r ∧ r < i + fuel ∧ t ≤ cumB h (r + 1) ∧
        ∀ j, i ≤ j → j < r → cumB h (j + 1) < t := by
  intro fuel
  induction fuel with
  | zero => intro i r hr; simp [scanBreak] at hr
  | succ n ih =>
    intro i r hr
    simp only [scanBreak] at hr
    by_cases hc : t ≤ cumB h i + h i
    · rw [if_pos hc] at hr
      injection hr with hr
      subst hr
      exact ⟨le_rfl, by omega, by simpa [cumB] using hc, fun j h1 h2 => by omega⟩
    · rw [if_neg hc] at hr
      have hcum : cumB h i + h i = cumB h (i + 1) := rfl
      rw [hcum] at hr
      obtain ⟨h1, h2, h3, h4⟩ := ih (i + 1) r hr
      refine ⟨by omega, by omega, h3, ?_⟩
      intro j hj1 hj2
      by_cases hji : j = i
      · subst hji
        simpa [cumB] using hc
      · exact h4 j (by omega) hj2

theorem scanBreak_isSome (h : Nat → Nat) (t : Nat) :
    ∀ fuel i, (∃ j, i ≤ j ∧ j < i + fuel ∧ t ≤ cumB h (j + 1)) →
      (scanBreak h t i (cumB h i) fuel).isSome = true := by
  intro fuel
  induction fuel with
  | zero => rintro i ⟨j, h1, h2, _⟩; omega
  | succ n ih =>
    rintro i ⟨j, h1, h2, h3⟩
    simp only [scanBreak]
    by_cases hc : t ≤ cumB h i + h i
    · rw [if_pos hc]; rfl
    · rw [if_neg hc]
      have hcum : cumB h i + h i = cumB h (i + 1) := rfl
      rw [hcum]
      apply ih (i + 1)
      refine ⟨j, ?_, by omega, h3⟩
      by_cases hji : j = i
      · subst hji
        exact absurd (by simpa [cumB] using h3) hc
      · omega

theorem countP_lt_succ (sample : List (Fin 256)) (n : Nat) :
    sample.countP (fun b => decide (b.val < n + 1)) =
      sample.countP (fun b => decide (b.val < n)) + sample.countP (fun b => b.val == n) := by
  induction sample with
  | nil => simp
  | cons a t ih =>
    simp only [List.countP_cons, ih]
    by_cases h1 : a.val < n
    · have h2 : a.val < n + 1 := by omega
      have h3 : (a.val == n) = false := by simp; omega
      simp [h1, h2, h3]
      omega
    · by_cases h2 : a.val = n
      · have h3 : a.val < n + 1 := by omega
        simp [h1, h2, h3]
        omega
      · have h3 : ¬(a.val < n + 1) := by omega
        have h4 : (a.val == n) = false := by simp [h2]
        simp [h1, h3, h4]

theorem cumB_histOf (sample : List (Fin 256)) :
    ∀ n, cumB (histOf sample) n = sample.countP (fun b => decide (b.val < n)) := by
  intro n
  induction n with
  | zero => simp [cumB]
  | succ k ih => rw [cumB, ih, histOf, ← countP_lt_succ]

theorem cumB_histOf_total (sample : List (Fin 256)) :
    cumB (histOf sample) 256 = sample.length := by
  rw [cumB_histOf]
  apply List.countP_eq_length.mpr
  intro a _
  simp [a.isLt]

/-- C7: whenever the estimator returns a correction, the widened percentile
bounds are as specified (`low` is the first bin whose cumulative count reaches
the 1st-percentile target minus 2 and clamped at 0, `high` the first bin
reaching the 99th-percentile target plus 2 and clamped at 255), the spread is
more than 5 grey levels, and scale/offset map `[low, high]` linearly onto
`[8, 245]`; when the widened spread is at most 5 (or the sample is empty) it
returns no correction. -/
theorem claim_C7_auto_levels (sample : List (Fin 256)) (hne : sample ≠ []) :
    ∃ l0 h0,
      lowTarget sample ≤ cumB (histOf sample) (l0 + 1) ∧
      (∀ j, j < l0 → cumB (histOf sample) (j + 1) < lowTarget sample) ∧
      highTarget sample ≤ cumB (histOf sample) (h0 + 1) ∧
      (∀ j, j < h0 → cumB (histOf sample) (j + 1) < highTarget sample) ∧
      (getAutoLevelsParams sample = none ↔ min 255 (h0 + 2) ≤ (l0 - 2) + 5) ∧
      (∀ p, getAutoLevelsParams sample = some p →
        p.low = l0 - 2 ∧ p.high = min 255 (h0 + 2) ∧ p.low + 5 < p.high ∧
        p.scale * (p.low : ℚ) + p.offset = 8 ∧
        p.scale * (p.high : ℚ) + p.offset = 245) := by
  have hlen : 0 < sample.length := List.length_pos.mpr hne
  have htot := cumB_histOf_total sample
  have hlowsome : (scanBreak (histOf sample) (lowTarget sample) 0 0 256).isSome = true := by
    have h0 : cumB (histOf sample) 0 = 0 := rfl
    rw [← h0]
    apply scanBreak_isSome
    refine ⟨255, by omega, by omega, ?_⟩
    rw [htot]
    exact Nat.div_le_self _ _
  have hhighsome : (scanBreak (histOf sample) (highTarget sample) 0 0 256).isSome = true := by
    have h0 : cumB (histOf sample) 0 = 0 := rfl
    rw [← h0]
    apply scanBreak_isSome
    refine ⟨255, by omega, by omega, ?_⟩
    rw [htot]
    show sample.length * 99 / 100 ≤ sample.length
    omega
  obtain ⟨l0, hl0⟩ := Option.isSome_iff_exists.mp hlowsome
  obtain ⟨h0, hh0⟩ := Option.isSome_iff_exists.mp hhighsome
  have hl0c : cumB (histOf sample) 0 = 0 := rfl
  have hlspec := scanBreak_spec (histOf sample) (lowTarget sample) 256 0 l0 (by rw [hl0c]; exact hl0)
  have hhspec := scanBreak_spec (histOf sample) (highTarget sample) 256 0 h0 (by rw [hl0c]; exact hh0)
  refine ⟨l0, h0, hlspec.2.2.1, fun j hj => hlspec.2.2.2 j (by omega) hj,
    hhspec.2.2.1, fun j hj => hhspec.2.2.2 j (by omega) hj, ?_, ?_⟩
  · unfold getAutoLevelsParams
    rw [if_neg (by omega), hl0, hh0]
    simp only [Option.getD_some]
    constructor
    · intro hnone
      by_cases hc : min 255 (h0 + 2) ≤ (l0 - 2) + 5
      · exact hc
      · rw [if_neg hc] at hnone
        exact absurd hnone (by simp)
    · intro hc
      rw [if_pos hc]
  · intro p hp
    unfold getAutoLevelsParams at hp
    rw [if_neg (by omega), hl0, hh0] at hp
    simp only [Option.getD_some] at hp
    by_cases hc : min 255 (h0 + 2) ≤ (l0 - 2) + 5
    · rw [if_pos hc] at hp
      exact absurd hp (by simp)
    · rw [if_neg hc] at hp
      injection hp with hp
      subst hp
      push_neg at hc
      have hmap := alScale_map (l0 - 2) (min 255 (h0 + 2)) (by omega)
      exact ⟨rfl, rfl, by simpa using hc, hmap.1, hmap.2⟩

theorem claim_C7_auto_levels_witness :
    ∃ l0 h0,
      lowTarget ((0 : Fin 256) :: List.replicate 99 (10 : Fin 256)) ≤
        cumB (histOf ((0 : Fin 256) :: List.replicate 99 (10 : Fin 256))) (l0 + 1) ∧
      (∀ j, j < l0 →
        cumB (histOf ((0 : Fin 256) :: List.replicate 99 (10 : Fin 256))) (j + 1) <
          lowTarget ((0 : Fin 256) :: List.replicate 99 (10 : Fin 256))) ∧
      highTarget ((0 : Fin 256) :: List.replicate 99 (10 : Fin 256)) ≤
        cumB (histOf ((0 : Fin 256) :: List.replicate 99 (10 : Fin 256))) (h0 + 1) ∧
      (∀ j, j < h0 →
        cumB (histOf ((0 : Fin 256) :: List.replicate 99 (10 : Fin 256))) (j + 1) <
          highTarget ((0 : Fin 256) :: List.replicate 99 (10 : Fin 256))) ∧
      (getAutoLevelsParams ((0 : Fin 256) :: List.replicate 99 (10 : Fin 256)) = none ↔
        min 255 (h0 + 2) ≤ (l0 - 2) + 5) ∧
      (∀ p, getAutoLevelsParams ((0 : Fin 256) :: List.replicate 99 (10 : Fin 256)) = some p →
        p.low = l0 - 2 ∧ p.high = min 255 (h0 + 2) ∧ p.low + 5 < p.high ∧
        p.scale * (p.low : ℚ) + p.offset = 8 ∧
        p.scale * (p.high : ℚ) + p.offset = 245) :=
  claim_C7_auto_levels ((0 : Fin 256) :: List.replicate 99 (10 : Fin 256)) (by simp)

/-- C1 as stated is false at this input: output absent, no skip record, source
above the threshold, probed codec `hevc` — the call returns null without
transcoding, but the skip record it writes has reason `already-hevc`, not
`already-transcoded`. -/
theorem claim_C1_counterexample :
    (ensureVideoTranscode ⟨none, false, some 20000000, some 10000000, some "hevc", false,
      none, 0, true, true, some 1⟩).1 = false ∧
    VtEvent.writeSkip "already-hevc" ∈
      (ensureVideoTranscode ⟨none, false, some 20000000, some 10000000, some "hevc", false,
        none, 0, true, true, some 1⟩).2.1 ∧
    VtEvent.writeSkip "already-transcoded" ∉
      (ensureVideoTranscode ⟨none, false, some 20000000, some 10000000, some "hevc", false,
        none, 0, true, true, some 1⟩).2.1 ∧
    VtEvent.spawnFfmpeg ∉
      (ensureVideoTranscode ⟨none, false, some 20000000, some 10000000, some "hevc", false,
        none, 0, true, true, some 1⟩).2.1 := by
  decide

/-- C1 (amended): with the output absent and no skip record, a source of size
at most the (positive) configured threshold gets a skip record with reason
`small` and a null return with no probe and no transcode; otherwise a probed
codec of the target family gets a skip record with reason `already-hevc` (not
`already-transcoded` as the spec says) and a null return, and the video is
never transcoded. -/
theorem claim_C1_skip_policy (s : VtIn)
    (hout : isNonEmptySize s.outSize = false) (hskip : s.skipExists = false) :
    (vtSmallSkip s = true →
      (ensureVideoTranscode s).1 = false ∧
      VtEvent.writeSkip "small" ∈ (ensureVideoTranscode s).2.1 ∧
      VtEvent.spawnFfmpeg ∉ (ensureVideoTranscode s).2.1 ∧
      VtEvent.probeCodec ∉ (ensureVideoTranscode s).2.1) ∧
    (vtSmallSkip s = false → vtCodecSkip s = true →
      (ensureVideoTranscode s).1 = false ∧
      VtEvent.writeSkip "already-hevc" ∈ (ensureVideoTranscode s).2.1 ∧
      VtEvent.spawnFfmpeg ∉ (ensureVideoTranscode s).2.1) := by
  constructor
  · intro hsmall
    rw [ensureVideoTranscode, if_neg (by simp [hout]), if_neg (by simp [hskip]),
      if_pos hsmall]
    refine ⟨rfl, by simp, by simp, by simp⟩
  · intro hsmall hcodec
    rw [ensureVideoTranscode, if_neg (by simp [hout]), if_neg (by simp [hskip]),
      if_neg (by simp [hsmall]), if_pos hcodec]
    refine ⟨rfl, by simp, by simp⟩

theorem claim_C1_skip_policy_witness :
    ((ensureVideoTranscode ⟨none, false, some 5000, some 10000000, none, false,
        none, 0, true, true, some 1⟩).1 = false ∧
      VtEvent.writeSkip "small" ∈
        (ensureVideoTranscode ⟨none, false, some 5000, some 10000000, none, false,
          none, 0, true, true, some 1⟩).2.1 ∧
      VtEvent.spawnFfmpeg ∉
        (ensureVideoTranscode ⟨none, false, some 5000, some 10000000, none, false,
          none, 0, true, true, some 1⟩).2.1 ∧
      VtEvent.probeCodec ∉
        (ensureVideoTranscode ⟨none, false, some 5000, some 10000000, none, false,
          none, 0, true, true, some 1⟩).2.1) :=
  (claim_C1_skip_policy _ (by decide) (by decide)).1 (by decide)

/-- C2: when a call reaches the lock step (output absent, no skip record, no
skip condition), an existing lock record means a null return with no transcode
and no lock create; a failed exclusive create also means a null return with no
transcode; and whenever the lock was created, the trace ends by removing the
lock record and the temp file, on success, failure and exception paths alike. -/
theorem claim_C2_lock_protocol (s : VtIn)
    (hout : isNonEmptySize s.outSize = false) (hskip : s.skipExists = false)
    (hsmall : vtSmallSkip s = false) (hcodec : vtCodecSkip s = false) :
    (s.lockExists = true →
      (ensureVideoTranscode s).1 = false ∧
      VtEvent.spawnFfmpeg ∉ (ensureVideoTranscode s).2.1 ∧
      VtEvent.createLock ∉ (ensureVideoTranscode s).2.1) ∧
    (s.lockExists = false → s.lockCreateOk = false →
      (ensureVideoTranscode s).1 = false ∧
      VtEvent.spawnFfmpeg ∉ (ensureVideoTranscode s).2.1) ∧
    (VtEvent.createLock ∈ (ensureVideoTranscode s).2.1 →
      ∃ pre, (ensureVideoTranscode s).2.1 =
        pre ++ [VtEvent.removeLock, VtEvent.removeTemp]) := by
  have hb :
      ensureVideoTranscode s =
        if s.lockExists then (false, [.probeCodec], deleteIfZeroSize s.outSize)
        else if vtBackoffActive s then (false, [.probeCodec], deleteIfZeroSize s.outSize)
        else if ¬ s.lockCreateOk then (false, [.probeCodec], deleteIfZeroSize s.outSize)
        else if ¬ s.ffmpegOk then
          (false, [.probeCodec, .createLock, .spawnFfmpeg, .writeFail, .removeLock,
            .removeTemp], deleteIfZeroSize s.outSize)
        else
          match s.tempSize with
          | none =>
            (false, [.probeCodec, .createLock, .spawnFfmpeg, .writeFail, .removeLock,
              .removeTemp], deleteIfZeroSize s.outSize)
          | some 0 =>
            (false, [.probeCodec, .createLock, .spawnFfmpeg, .writeFail, .removeLock,
              .removeTemp], deleteIfZeroSize s.outSize)
          | some (t + 1) =>
            (true, [.probeCodec, .createLock, .spawnFfmpeg, .moveToOut, .removeFailRecord,
              .removeLock, .removeTemp], some (t + 1)) := by
    rw [ensureVideoTranscode, if_neg (by simp [hout]), if_neg (by simp [hskip]),
      if_neg (by simp [hsmall]), if_neg (by simp [hcodec])]
  refine ⟨?_, ?_, ?_⟩
  · intro hlock
    rw [hb, if_pos hlock]
    refine ⟨rfl, by simp, by simp⟩
  · intro hlock hcreate
    rw [hb, if_neg (by simp [hlock])]
    by_cases hback : vtBackoffActive s = true
    · rw [if_pos hback]
      exact ⟨rfl, by simp⟩
    · rw [if_neg hback, if_pos (by simp [hcreate])]
      exact ⟨rfl, by simp⟩
  · intro hmem
    rw [hb] at hmem ⊢
    by_cases hlock : s.lockExists = true
    · rw [if_pos hlock] at hmem
      simp at hmem
    · rw [if_neg hlock] at hmem ⊢
      by_cases hback : vtBackoffActive s = true
      · rw [if_pos hback] at hmem
        simp at hmem
      · rw [if_neg hback] at hmem ⊢
        by_cases hcreate : s.lockCreateOk = true
        · rw [if_neg (by simp [hcreate])] at hmem ⊢
          by_cases hff : s.ffmpegOk = true
          · rw [if_neg (by simp [hff])] at hmem ⊢
            match htemp : s.tempSize with
            | none =>
              exact ⟨[.probeCodec, .createLock, .spawnFfmpeg, .writeFail], rfl⟩
            | some 0 =>
              exact ⟨[.probeCodec, .createLock, .spawnFfmpeg, .writeFail], rfl⟩
            | some (t + 1) =>
              exact ⟨[.probeCodec, .createLock, .spawnFfmpeg, .moveToOut,
                .removeFailRecord], rfl⟩
          · rw [if_pos (by simp [Bool.not_eq_true] at hff; simp [hff])] at hmem ⊢
            exact ⟨[.probeCodec, .createLock, .spawnFfmpeg, .writeFail], rfl⟩
        · rw [if_pos (by simp [Bool.not_eq_true] at hcreate; simp [hcreate])] at hmem
          simp at hmem

theorem claim_C2_lock_protocol_witness :
    ((ensureVideoTranscode ⟨none, false, some 20000000, some 10000000, some "h264", true,
        none, 0, true, true, some 1⟩).1 = false ∧
      VtEvent.spawnFfmpeg ∉
        (ensureVideoTranscode ⟨none, false, some 20000000, some 10000000, some "h264", true,
          none, 0, true, true, some 1⟩).2.1 ∧
      VtEvent.createLock ∉
        (ensureVideoTranscode ⟨none, false, some 20000000, some 10000000, some "h264", true,
          none, 0, true, true, some 1⟩).2.1) :=
  (claim_C2_lock_protocol _ (by decide) (by decide) (by decide) (by decide)).1 rfl

/-- C3: at the failure-record check (output absent, no skip, no skip
condition, no lock), a parsed failure record younger than the 10-minute
backoff window forces a null return with no transcode subprocess and no lock
create; once the window has elapsed, the call proceeds to lock acquisition
and (when the exclusive create succeeds) to the transcode run. -/
theorem claim_C3_failure_backoff (s : VtIn)
    (hout : isNonEmptySize s.outSize = false) (hskip : s.skipExists = false)
    (hsmall : vtSmallSkip s = false) (hcodec : vtCodecSkip s = false)
    (hlock : s.lockExists = false) :
    (∀ a, s.failRead = some (.fields (some a)) → s.nowMs - a < transcodeBackoffMs →
      (ensureVideoTranscode s).1 = false ∧
      VtEvent.spawnFfmpeg ∉ (ensureVideoTranscode s).2.1 ∧
      VtEvent.createLock ∉ (ensureVideoTranscode s).2.1) ∧
    (∀ a, s.failRead = some (.fields (some a)) → transcodeBackoffMs ≤ s.nowMs - a →
      s.lockCreateOk = true →
      VtEvent.createLock ∈ (ensureVideoTranscode s).2.1 ∧
      VtEvent.spawnFfmpeg ∈ (ensureVideoTranscode s).2.1) := by
  have hbase :
      ensureVideoTranscode s =
        if vtBackoffActive s then (false, [.probeCodec], deleteIfZeroSize s.outSize)
        else if ¬ s.lockCreateOk then (false, [.probeCodec], deleteIfZeroSize s.outSize)
        else if ¬ s.ffmpegOk then
          (false, [.probeCodec, .createLock, .spawnFfmpeg, .writeFail, .removeLock,
            .removeTemp], deleteIfZeroSize s.outSize)
        else
          match s.tempSize with
          | none =>
            (false, [.probeCodec, .createLock, .spawnFfmpeg, .writeFail, .removeLock,
              .removeTemp], deleteIfZeroSize s.outSize)
          | some 0 =>
            (false, [.probeCodec, .createLock, .spawnFfmpeg, .writeFail, .removeLock,
              .removeTemp], deleteIfZeroSize s.outSize)
          | some (t + 1) =>
            (true, [.probeCodec, .createLock, .spawnFfmpeg, .moveToOut, .removeFailRecord,
              .removeLock, .removeTemp], some (t + 1)) := by
    rw [ensureVideoTranscode, if_neg (by simp [hout]), if_neg (by simp [hskip]),
      if_neg (by simp [hsmall]), if_neg (by simp [hcodec]), if_neg (by simp [hlock])]
  refine ⟨?_, ?_⟩
  · intro a hfail hyoung
    have hback : vtBackoffActive s = true := by
      rw [vtBackoffActive, hfail]
      simpa using hyoung
    rw [hbase, if_pos hback]
    refine ⟨rfl, by simp, by simp⟩
  · intro a hfail hold hcreate
    have hback : vtBackoffActive s = false := by
      rw [vtBackoffActive, hfail]
      simpa using hold
    rw [hbase, if_neg (by simp [hback]), if_neg (by simp [hcreate])]
    by_cases hff : s.ffmpegOk = true
    · rw [if_neg (by simp [hff])]
      match s.tempSize with
      | none => exact ⟨by simp, by simp⟩
      | some 0 => exact ⟨by simp, by simp⟩
      | some (t + 1) => exact ⟨by simp, by simp⟩
    · rw [if_pos (by simp [Bool.not_eq_true] at hff; simp [hff])]
      exact ⟨by simp, by simp⟩

theorem claim_C3_failure_backoff_witness :
    ((ensureVideoTranscode ⟨none, false, some 20000000, some 10000000, some "h264", false,
        some (.fields (some 100)), 1100, true, true, some 1⟩).1 = false ∧
      VtEvent.spawnFfmpeg ∉
        (ensureVideoTranscode ⟨none, false, some 20000000, some 10000000, some "h264", false,
          some (.fields (some 100)), 1100, true, true, some 1⟩).2.1 ∧
      VtEvent.createLock ∉
        (ensureVideoTranscode ⟨none, false, some 20000000, some 10000000, some "h264", false,
          some (.fields (some 100)), 1100, true, true, some 1⟩).2.1) :=
  (claim_C3_failure_backoff _ (by decide) (by decide) (by decide) (by decide)
    (by decide)).1 100 rfl (by decide)

/-! Path disequalities: everything the pipeline writes lives under the cache
directory `photosDir/folder/cacheFolder/`, which has strictly more `/`
separators than any original-file path `photosDir/folder/<basename>`. -/

theorem strExt {a b : String} (h : a.data = b.data) : a = b := by
  cases a; cases b; exact congrArg String.mk h

theorem strAssoc (a b c : String) : a ++ b ++ c = a ++ (b ++ c) :=
  strExt (by simp [strData_append, List.append_assoc])

theorem slashCount_slash : slashCount "/" = 1 := by decide

theorem slashCount_origP (pd folder nm : String) :
    slashCount (origP pd folder nm) =
      slashCount pd + slashCount folder + slashCount nm + 2 := by
  simp only [origP, slashCount_append, slashCount_slash]
  omega

theorem slashCount_cacheDir (pd cf folder rest : String) :
    slashCount (cacheDirStr pd cf folder ++ rest) =
      slashCount pd + slashCount folder + slashCount cf + slashCount rest + 3 := by
  simp only [cacheDirStr, slashCount_append, slashCount_slash]
  omega

theorem slashCount_eq_zero {s : String} (h : ('/' : Char) ∉ s.data) : slashCount s = 0 :=
  List.count_eq_zero.mpr h

theorem parseNameOf_slashfree {nm : String} (h : ('/' : Char) ∉ nm.data) :
    ('/' : Char) ∉ (parseNameOf nm).data := by
  unfold parseNameOf
  split
  · exact h
  · split
    · split
      · exact h
      · intro hmem
        exact h (List.mem_of_mem_take hmem)
    · exact h

theorem cacheStr_ne_orig (pd cf folder nm rest : String) (hnm : ('/' : Char) ∉ nm.data) :
    cacheDirStr pd cf folder ++ rest ≠ origP pd folder nm := by
  intro h
  have hc := congrArg slashCount h
  rw [slashCount_cacheDir, slashCount_origP, slashCount_eq_zero hnm] at hc
  omega

theorem gicp_eq (pd cf folder name v : String) :
    getImageCachePath pd cf folder name v =
      cacheDirStr pd cf folder ++ (parseNameOf name ++ "_" ++ v ++ ".jpg") := rfl

theorem gicp_raw_eq (pd cf folder name v : String) :
    getImageCachePath pd cf folder name v ++ ".raw" =
      cacheDirStr pd cf folder ++ (parseNameOf name ++ "_" ++ v ++ ".jpg" ++ ".raw") :=
  strExt (by simp [getImageCachePath, strData_append, List.append_assoc])

theorem gicp_rawjson_eq (pd cf folder name v : String) :
    getImageCachePath pd cf folder name v ++ ".raw" ++ ".json" =
      cacheDirStr pd cf folder ++ (parseNameOf name ++ "_" ++ v ++ ".jpg" ++ ".raw" ++ ".json") :=
  strExt (by simp [getImageCachePath, strData_append, List.append_assoc])

theorem str_len_append (a b : String) : (a ++ b).data.length = a.data.length + b.data.length := by
  rw [strData_append, List.length_append]

theorem str_append_ne_self {a b : String} (hb : b.data ≠ []) : a ++ b ≠ a := by
  intro h
  have := congrArg (fun s => s.data.length) h
  simp only [str_len_append] at this
  have : b.data.length = 0 := by omega
  exact hb (List.length_eq_zero.mp this)

theorem raw_ne_base (F : String) : F ++ ".raw" ≠ F :=
  str_append_ne_self (by decide)

theorem rawjson_ne_base (F : String) : F ++ ".raw" ++ ".json" ≠ F := by
  rw [strAssoc]
  exact str_append_ne_self (by decide)

theorem rawjson_ne_raw (F : String) : F ++ ".raw" ++ ".json" ≠ F ++ ".raw" :=
  str_append_ne_self (by decide)

/-! Frame lemmas: which paths a call can touch. -/

theorem fsSet_other (fs : FS) (p : String) (fi : FileInfo) {q : String} (hq : q ≠ p) :
    fsSet fs p fi q = fs q := by
  simp [fsSet, hq]

theorem fsDel_other (fs : FS) (p : String) {q : String} (hq : q ≠ p) :
    fsDel fs p q = fs q := by
  simp [fsDel, hq]

theorem dngFallback_frame (o : ImgOracle) (fs : FS) (F : String) (g : Nat) {q : String}
    (hq : q ≠ F) : (dngFallback o fs F g).2.1 q = fs q := by
  unfold dngFallback
  repeat' split
  · rfl
  · exact fsSet_other fs F _ hq
  · show fsDel (fsSet fs F ⟨o.dngFallbackSize, true, false⟩) F q = fs q
    rw [fsDel_other _ F hq, fsSet_other fs F _ hq]

theorem workerRawStep_frame (o : ImgOracle) (fs : FS) (F : String) {q : String}
    (hqr : q ≠ F ++ ".raw") : workerRawStep o fs F q = fs q := by
  unfold workerRawStep
  split
  · exact fsSet_other fs _ _ hqr
  · rfl

theorem workerSidecars_frame (o : ImgOracle) (fs : FS) (F : String) {q : String}
    (hqr : q ≠ F ++ ".raw") (hqm : q ≠ F ++ ".raw" ++ ".json") :
    workerSidecars o fs F q = fs q := by
  unfold workerSidecars
  split
  · rw [fsSet_other _ _ _ hqm]
    exact workerRawStep_frame o fs F hqr
  · exact workerRawStep_frame o fs F hqr

theorem dngGenerate_frame (o : ImgOracle) (fs : FS) (F : String) {q : String}
    (hq : q ≠ F) (hqr : q ≠ F ++ ".raw") (hqm : q ≠ F ++ ".raw" ++ ".json") :
    (dngGenerate o fs F).2.1 q = fs q := by
  have hbase : workerSidecars o fs F q = fs q := workerSidecars_frame o fs F hqr hqm
  unfold dngGenerate
  split
  · exact dngFallback_frame o fs F 1 hq
  · repeat' split
    all_goals first
      | exact (dngFallback_frame o _ F _ hq).trans hbase
      | (refine (dngFallback_frame o _ F _ hq).trans ?_
         rw [fsDel_other _ F hq, fsSet_other _ F _ hq]
         exact hbase)
      | (show fsDel (fsDel (fsSet _ F _) (F ++ ".raw")) (F ++ ".raw" ++ ".json") q = fs q
         rw [fsDel_other _ _ hqm, fsDel_other _ _ hqr, fsSet_other _ F _ hq]
         exact hbase)

theorem purgeEmpty_other (fs : FS) (p : String) {q : String} (hq : q ≠ p) :
    purgeEmpty fs p q = fs q := by
  unfold purgeEmpty
  split
  · exact fsDel_other fs p hq
  · rfl

theorem pathExists_congr {fs1 fs2 : FS} {p : String} (h : fs1 p = fs2 p) :
    pathExists fs1 p = pathExists fs2 p := by
  unfold pathExists; rw [h]

theorem isNonEmptyFile_congr {fs1 fs2 : FS} {p : String} (h : fs1 p = fs2 p) :
    isNonEmptyFile fs1 p = isNonEmptyFile fs2 p := by
  unfold isNonEmptyFile; rw [h]

theorem smallJpegShortcut_congr {fs1 fs2 : FS} {absOriginal name : String} {w : Option Nat}
    (h : fs1 absOriginal = fs2 absOriginal) :
    smallJpegShortcut fs1 absOriginal name w = smallJpegShortcut fs2 absOriginal name w := by
  unfold smallJpegShortcut; rw [h]

theorem slashfree_append {a b : String} (ha : ('/' : Char) ∉ a.data)
    (hb : ('/' : Char) ∉ b.data) : ('/' : Char) ∉ (a ++ b).data := by
  rw [strData_append]
  intro hmem
  rcases List.mem_append.mp hmem with h | h
  · exact ha h
  · exact hb h

theorem resolve_frame (pd cf : String) (o : ImgOracle) (fs : FS) (folder name : String)
    {q : String} (hq : ∀ rest, q ≠ cacheDirStr pd cf folder ++ rest) :
    (resolveImageSource pd cf o fs folder name).2.1 q = fs q := by
  have hF : q ≠ fullCacheP pd cf folder name := by
    rw [fullCacheP, gicp_eq]; exact hq _
  have hR : q ≠ fullCacheP pd cf folder name ++ ".raw" := by
    rw [fullCacheP, gicp_raw_eq]; exact hq _
  have hM : q ≠ fullCacheP pd cf folder name ++ ".raw" ++ ".json" := by
    rw [fullCacheP, gicp_rawjson_eq]; exact hq _
  unfold resolveImageSource
  repeat' split
  any_goals rfl
  exact (dngGenerate_frame o _ _ hF hR hM).trans (purgeEmpty_other fs _ hF)

theorem heicCatch_frame (o : ImgOracle) (fs : FS) (src cachePath : String) (g : Nat)
    (notHeic : Bool) (orig : MErr) {q : String} (hq : q ≠ cachePath) :
    (heicCatch o fs src cachePath g notHeic orig).2.1 q = fs q := by
  unfold heicCatch
  repeat' split
  any_goals rfl
  all_goals exact fsSet_other fs cachePath _ hq

theorem heicTry_frame (o : ImgOracle) (fs : FS) (src cachePath : String) {q : String}
    (hq : q ≠ cachePath) : (heicTry o fs src cachePath).2.1 q = fs q := by
  unfold heicTry
  repeat' split
  any_goals exact heicCatch_frame o fs src cachePath _ _ _ hq
  exact fsSet_other fs cachePath _ hq

theorem genStep_frame (o : ImgOracle) (fs : FS) (kind : SrcKind) (src cachePath : String)
    {q : String} (hq : q ≠ cachePath) :
    (genStep o fs kind src cachePath).2.1 q = fs q := by
  unfold genStep
  repeat' split
  · exact heicTry_frame o fs src cachePath hq
  · rfl
  · exact fsSet_other fs cachePath _ hq

theorem afterResolve_frame (o : ImgOracle) (fs1 : FS) (g1 : Nat) (src : String) (k0 : SrcKind)
    (cachePath : String) {q : String} (hq : q ≠ cachePath) :
    (afterResolve o fs1 g1 src k0 cachePath).2.1 q = fs1 q := by
  have hgen : (genStep o (purgeEmpty fs1 cachePath) (sourceKindOf fs1 k0 src) src
      cachePath).2.1 q = fs1 q :=
    (genStep_frame o _ _ src cachePath hq).trans (purgeEmpty_other fs1 cachePath hq)
  unfold afterResolve
  split
  · rfl
  · split
    · rename_i e fs3 g2 heq
      have := congrArg (fun r => r.2.1 q) heq
      simpa using this.symm.trans hgen
    · rename_i u fs3 g2 heq
      have h3 : fs3 q = fs1 q := by
        have := congrArg (fun r => r.2.1 q) heq
        simpa using this.symm.trans hgen
      split
      · exact h3
      · exact (fsDel_other fs3 cachePath hq).trans h3

theorem ensure_frame (pd cf : String) (o : ImgOracle) (fs : FS) (folder name : String)
    (widthInt : Option Nat) {q : String}
    (hq : ∀ rest, q ≠ cacheDirStr pd cf folder ++ rest) :
    (ensureImageVariant pd cf o fs folder name widthInt).2.1 q = fs q := by
  have hW : q ≠ getImageCachePath pd cf folder name (variantOf (widthNorm widthInt)) := by
    rw [gicp_eq]; exact hq _
  unfold ensureImageVariant
  split
  · rfl
  · split
    · rfl
    · split
      · rename_i e fs1 g1 heq
        have := congrArg (fun r => r.2.1 q) heq
        simpa using this.symm.trans (resolve_frame pd cf o fs folder name hq)
      · rename_i src k0 fs1 g1 heq
        have h1 : fs1 q = fs q := by
          have := congrArg (fun r => r.2.1 q) heq
          simpa using this.symm.trans (resolve_frame pd cf o fs folder name hq)
        exact (afterResolve_frame o fs1 g1 src k0 _ hW).trans h1

theorem dngFallback_ok (o : ImgOracle) (fs : FS) (F : String) (g : Nat) {src : String}
    {k : SrcKind} (h : (dngFallback o fs F g).1 = .ok (src, k)) :
    src = F ∧ isNonEmptyFile (dngFallback o fs F g).2.1 F = true := by
  unfold dngFallback at h ⊢
  split at h
  · exact absurd h (by simp)
  · rename_i hok
    rw [if_neg hok]
    split at h
    · rename_i hc
      rw [if_pos hc]
      simp only [Except.ok.injEq, Prod.mk.injEq] at h
      refine ⟨h.1.symm, ?_⟩
      show isNonEmptyFile (fsSet fs F ⟨o.dngFallbackSize, true, false⟩) F = true
      exact hc
    · exact absurd h (by simp)

theorem dngGenerate_ok (o : ImgOracle) (fs : FS) (F : String) {src : String} {k : SrcKind}
    (h : (dngGenerate o fs F).1 = .ok (src, k)) :
    src = F ∧ isNonEmptyFile (dngGenerate o fs F).2.1 F = true := by
  unfold dngGenerate at h ⊢
  split at h
  · rename_i hc
    rw [if_pos hc]
    exact dngFallback_ok o fs F 1 h
  · rename_i hc
    rw [if_neg hc]
    split at h
    · rename_i hc2
      rw [if_pos hc2]
      exact dngFallback_ok o _ F 1 h
    · rename_i hc2
      rw [if_neg hc2]
      split at h
      · rename_i hc3
        rw [if_pos hc3]
        exact dngFallback_ok o _ F 1 h
      · rename_i hc3
        rw [if_neg hc3]
        split at h
        · rename_i hc4
          rw [if_pos hc4]
          exact dngFallback_ok o _ F 2 h
        · rename_i hc4
          rw [if_neg hc4]
          split at h
          · rename_i hc5
            rw [if_pos hc5]
            exact dngFallback_ok o _ F 2 h
          · rename_i hc5
            rw [if_neg hc5]
            simp only [Except.ok.injEq, Prod.mk.injEq] at h
            refine ⟨h.1.symm, ?_⟩
            rw [Bool.not_eq_true, Bool.not_eq_false] at hc5
            show isNonEmptyFile (fsDel (fsDel (fsSet (workerSidecars o fs F) F
              ⟨o.dngWriteSize, true, false⟩) (F ++ ".raw")) (F ++ ".raw" ++ ".json")) F = true
            have h1 : fsDel (fsDel (fsSet (workerSidecars o fs F) F
                ⟨o.dngWriteSize, true, false⟩) (F ++ ".raw")) (F ++ ".raw" ++ ".json") F =
                fsSet (workerSidecars o fs F) F ⟨o.dngWriteSize, true, false⟩ F := by
              rw [fsDel_other _ _ (rawjson_ne_base F).symm,
                fsDel_other _ _ (raw_ne_base F).symm]
            rw [isNonEmptyFile_congr h1]
            exact hc5

theorem resolve_dng_nosib (pd cf : String) (o : ImgOracle) (fs : FS) (folder name : String)
    {src : String} {k : SrcKind}
    (hd : extOfName name = ".dng")
    (hj : pathExists fs (jpgSib pd folder name) = false)
    (hj2 : pathExists fs (jpegSib pd folder name) = false)
    (hok : (resolveImageSource pd cf o fs folder name).1 = .ok (src, k)) :
    src = fullCacheP pd cf folder name ∧
    isNonEmptyFile (resolveImageSource pd cf o fs folder name).2.1
      (fullCacheP pd cf folder name) = true := by
  unfold resolveImageSource at hok ⊢
  rw [hd] at hok ⊢
  rw [if_neg (by decide), if_neg (by simp), if_neg (by simp [hj]), if_neg (by simp [hj2])]
    at hok ⊢
  split at hok
  · rename_i hc
    simp only [Except.ok.injEq, Prod.mk.injEq] at hok
    rw [if_pos hc]
    exact ⟨hok.1.symm, by simpa [← hok.1] using hc⟩
  · rename_i hc
    rw [if_neg hc]
    exact dngGenerate_ok o _ _ hok

theorem afterResolve_post (o : ImgOracle) (fs1 : FS) (g1 : Nat) (src : String) (k0 : SrcKind)
    (cachePath : String) {p : String}
    (h : (afterResolve o fs1 g1 src k0 cachePath).1 = .ok p) :
    p = cachePath ∧
    isNonEmptyFile (afterResolve o fs1 g1 src k0 cachePath).2.1 cachePath = true := by
  unfold afterResolve at h ⊢
  split at h
  · rename_i hc
    rw [if_pos hc]
    simp only [Except.ok.injEq] at h
    exact ⟨h.symm, by simpa [← h] using hc⟩
  · rename_i hc
    rw [if_neg hc]
    split at h
    · exact absurd h (by simp)
    · rename_i u fs3 g2 heq
      split at h
      · rename_i hc3
        rw [if_pos hc3]
        simp only [Except.ok.injEq] at h
        exact ⟨h.symm, hc3⟩
      · exact absurd h (by simp)

theorem resolve_cheap (pd cf : String) (o : ImgOracle) (fs : FS) (folder name : String)
    (hdng : extOfName name = ".dng" → pathExists fs (jpgSib pd folder name) = false →
      pathExists fs (jpegSib pd folder name) = false →
      isNonEmptyFile fs (fullCacheP pd cf folder name) = true) :
    ∃ src k, resolveImageSource pd cf o fs folder name = (.ok (src, k), fs, 0) := by
  unfold resolveImageSource
  by_cases h1 : extOfName name = ".heic" ∨ extOfName name = ".heif"
  · rw [if_pos h1]
    exact ⟨_, _, rfl⟩
  · rw [if_neg h1]
    by_cases h2 : extOfName name ≠ ".dng"
    · rw [if_pos h2]
      exact ⟨_, _, rfl⟩
    · rw [if_neg h2]
      rw [not_not] at h2
      by_cases h3 : pathExists fs (jpgSib pd folder name) = true
      · rw [if_pos h3]
        exact ⟨_, _, rfl⟩
      · rw [if_neg h3]
        by_cases h4 : pathExists fs (jpegSib pd folder name) = true
        · rw [if_pos h4]
          exact ⟨_, _, rfl⟩
        · rw [if_neg h4]
          rw [Bool.not_eq_true] at h3 h4
          rw [if_pos (hdng h2 h3 h4)]
          exact ⟨_, _, rfl⟩

theorem ensure_cached (pd cf : String) (o : ImgOracle) (fs : FS) (folder name : String)
    (widthInt : Option Nat)
    (hA : pathExists fs (origP pd folder name) = true)
    (hshort : smallJpegShortcut fs (origP pd folder name) name (widthNorm widthInt) = false)
    (hcache : isNonEmptyFile fs
      (getImageCachePath pd cf folder name (variantOf (widthNorm widthInt))) = true)
    (hdng : extOfName name = ".dng" → pathExists fs (jpgSib pd folder name) = false →
      pathExists fs (jpegSib pd folder name) = false →
      isNonEmptyFile fs (fullCacheP pd cf folder name) = true) :
    ensureImageVariant pd cf o fs folder name widthInt =
      (.ok (getImageCachePath pd cf folder name (variantOf (widthNorm widthInt))), fs, 0) := by
  obtain ⟨src, k, hres⟩ := resolve_cheap pd cf o fs folder name hdng
  unfold ensureImageVariant
  rw [if_neg (by simp [hA]), if_neg (by simp [hshort]), hres]
  show afterResolve o fs 0 src k _ = _
  unfold afterResolve
  rw [if_pos hcache]

theorem ensure_shortcut (pd cf : String) (o : ImgOracle) (fs : FS) (folder name : String)
    (widthInt : Option Nat)
    (hA : pathExists fs (origP pd folder name) = true)
    (hshort : smallJpegShortcut fs (origP pd folder name) name (widthNorm widthInt) = true) :
    ensureImageVariant pd cf o fs folder name widthInt = (.ok (origP pd folder name), fs, 0) := by
  unfold ensureImageVariant
  rw [if_neg (by simp [hA]), if_pos hshort]

theorem ensure_post (pd cf : String) (o : ImgOracle) (fs : FS) (folder name : String)
    (widthInt : Option Nat) {p : String}
    (h1 : (ensureImageVariant pd cf o fs folder name widthInt).1 = .ok p) :
    pathExists fs (origP pd folder name) = true ∧
    ((smallJpegShortcut fs (origP pd folder name) name (widthNorm widthInt) = true ∧
        ensureImageVariant pd cf o fs folder name widthInt = (.ok (origP pd folder name), fs, 0) ∧
        p = origP pd folder name) ∨
      (smallJpegShortcut fs (origP pd folder name) name (widthNorm widthInt) = false ∧
        p = getImageCachePath pd cf folder name (variantOf (widthNorm widthInt)) ∧
        isNonEmptyFile (ensureImageVariant pd cf o fs folder name widthInt).2.1 p = true ∧
        (extOfName name = ".dng" → pathExists fs (jpgSib pd folder name) = false →
          pathExists fs (jpegSib pd folder name) = false →
          isNonEmptyFile (ensureImageVariant pd cf o fs folder name widthInt).2.1
            (fullCacheP pd cf folder name) = true))) := by
  by_cases hA : pathExists fs (origP pd folder name) = true
  · refine ⟨hA, ?_⟩
    by_cases hshort :
        smallJpegShortcut fs (origP pd folder name) name (widthNorm widthInt) = true
    · left
      have he := ensure_shortcut pd cf o fs folder name widthInt hA hshort
      rw [he] at h1
      simp only [Except.ok.injEq] at h1
      exact ⟨hshort, he, h1.symm⟩
    · right
      rw [Bool.not_eq_true] at hshort
      refine ⟨hshort, ?_⟩
      unfold ensureImageVariant at h1 ⊢
      rw [if_neg (by simp [hA]), if_neg (by simp [hshort])] at h1 ⊢
      split at h1
      · exact absurd h1 (by simp)
      · rename_i src k0 fs1 g1 heq
        have hpost := afterResolve_post o fs1 g1 src k0 _ h1
        refine ⟨hpost.1, by rw [hpost.1]; exact hpost.2, ?_⟩
        intro hd hj hj2
        have hres1 : (resolveImageSource pd cf o fs folder name).1 = .ok (src, k0) := by
          rw [heq]
        have hns := resolve_dng_nosib pd cf o fs folder name hd hj hj2 hres1
        have hfs1 : isNonEmptyFile fs1 (fullCacheP pd cf folder name) = true := by
          have := hns.2
          rw [heq] at this
          exact this
        by_cases hFc :
            fullCacheP pd cf folder name =
              getImageCachePath pd cf folder name (variantOf (widthNorm widthInt))
        · rw [hFc]
          exact hpost.2
        · rw [isNonEmptyFile_congr (afterResolve_frame o fs1 g1 src k0 _ hFc)]
          exact hfs1
  · exfalso
    unfold ensureImageVariant at h1
    rw [if_pos (by simp [Bool.not_eq_true] at hA ⊢; simp [hA])] at h1
    exact absurd h1 (by simp)

/-- C4: `ensureImageVariant` is idempotent — when a call returns a path, a
second call with the same asset and width (whatever the outcomes of the
external tools in either call) returns the identical path, leaves the file
system unchanged, and performs no decode/resize/encode work. -/
theorem claim_C4_idempotent (pd cf : String) (o1 o2 : ImgOracle) (fs : FS)
    (folder name : String) (widthInt : Option Nat) (p : String)
    (hname : ('/' : Char) ∉ name.data)
    (h1 : (ensureImageVariant pd cf o1 fs folder name widthInt).1 = .ok p) :
    ensureImageVariant pd cf o2 (ensureImageVariant pd cf o1 fs folder name widthInt).2.1
        folder name widthInt =
      (.ok p, (ensureImageVariant pd cf o1 fs folder name widthInt).2.1, 0) := by
  obtain ⟨hA, hcase⟩ := ensure_post pd cf o1 fs folder name widthInt h1
  rcases hcase with ⟨hshort, he, hp⟩ | ⟨hshort, hp, hcache, hdngf⟩
  · rw [he]
    simp only
    rw [hp]
    exact ensure_shortcut pd cf o2 fs folder name widthInt hA hshort
  · have hAne : ∀ rest, origP pd folder name ≠ cacheDirStr pd cf folder ++ rest :=
      fun rest h => cacheStr_ne_orig pd cf folder name rest hname h.symm
    have hAfs : (ensureImageVariant pd cf o1 fs folder name widthInt).2.1
        (origP pd folder name) = fs (origP pd folder name) :=
      ensure_frame pd cf o1 fs folder name widthInt hAne
    have hjsf : ('/' : Char) ∉ (parseNameOf name ++ ".jpg").data :=
      slashfree_append (parseNameOf_slashfree hname) (by decide)
    have hj2sf : ('/' : Char) ∉ (parseNameOf name ++ ".jpeg").data :=
      slashfree_append (parseNameOf_slashfree hname) (by decide)
    have hJfs : (ensureImageVariant pd cf o1 fs folder name widthInt).2.1
        (jpgSib pd folder name) = fs (jpgSib pd folder name) :=
      ensure_frame pd cf o1 fs folder name widthInt
        (fun rest h => cacheStr_ne_orig pd cf folder _ rest hjsf h.symm)
    have hJ2fs : (ensureImageVariant pd cf o1 fs folder name widthInt).2.1
        (jpegSib pd folder name) = fs (jpegSib pd folder name) :=
      ensure_frame pd cf o1 fs folder name widthInt
        (fun rest h => cacheStr_ne_orig pd cf folder _ rest hj2sf h.symm)
    have hcall2 := ensure_cached pd cf o2
      (ensureImageVariant pd cf o1 fs folder name widthInt).2.1 folder name widthInt
      (by rw [pathExists_congr hAfs]; exact hA)
      (by rw [smallJpegShortcut_congr hAfs]; exact hshort)
      (by rw [← hp]; exact hcache)
      (by
        intro hd hj hj2
        rw [pathExists_congr hJfs] at hj
        rw [pathExists_congr hJ2fs] at hj2
        exact hdngf hd hj hj2)
    rw [hcall2, hp]

theorem claim_C4_idempotent_witness :
    ensureImageVariant "P" "C" ⟨false, false, 0, false, false, 0, false, 0, false, false,
        false, 0, false, 0, false, 0⟩
      (ensureImageVariant "P" "C" ⟨true, true, 1, true, true, 1, true, 1, true, false,
          true, 1, true, 1, true, 500⟩
        (fun p => if p = "P/F/a.jpg" then some ⟨2000000, true, false⟩ else none)
        "F" "a.jpg" (some 300)).2.1
      "F" "a.jpg" (some 300) =
    (.ok "P/F/C/a_w300.jpg",
      (ensureImageVariant "P" "C" ⟨true, true, 1, true, true, 1, true, 1, true, false,
          true, 1, true, 1, true, 500⟩
        (fun p => if p = "P/F/a.jpg" then some ⟨2000000, true, false⟩ else none)
        "F" "a.jpg" (some 300)).2.1, 0) :=
  claim_C4_idempotent "P" "C" _ _ _ "F" "a.jpg" (some 300) "P/F/C/a_w300.jpg"
    (by decide) rfl

/-- C8 as stated is false at this input: a `.dng` with no sibling JPEG whose
RAW worker run fails and whose sharp fallback also fails does raise a hard
failure to the caller. -/
theorem claim_C8_counterexample :
    (resolveImageSource "P" "C"
      ⟨false, false, 0, false, false, 0, false, 0, false, false, false, 0, false, 0, false, 0⟩
      (fun p => if p = "P/F/a.dng" then some ⟨100, false, false⟩ else none)
      "F" "a.dng").1 = .error .writeFail := rfl

theorem isNonEmptyFile_fsSet_self (fs : FS) (p : String) (fi : FileInfo) :
    isNonEmptyFile (fsSet fs p fi) p = decide (0 < fi.size) := by
  unfold isNonEmptyFile fsSet
  simp

/-- C8 (amended): for a `.dng` asset the source resolver returns a sibling
`.jpg` (or `.jpeg`) directly, with no worker invocation and no file-system
change; with no sibling and no cached full-size render, a worker failure is
caught — the call proceeds to the sharp fallback on the original file, and
when that fallback produces a non-empty file the resolver still succeeds; the
worker failure itself is logged, never raised, though a failure of the
fallback encode itself does propagate. -/
theorem claim_C8_dng_resolution (pd cf : String) (o : ImgOracle) (fs : FS)
    (folder name : String) (hd : extOfName name = ".dng") :
    (pathExists fs (jpgSib pd folder name) = true →
      resolveImageSource pd cf o fs folder name = (.ok (jpgSib pd folder name, .path), fs, 0)) ∧
    (pathExists fs (jpgSib pd folder name) = false →
      pathExists fs (jpegSib pd folder name) = true →
      resolveImageSource pd cf o fs folder name =
        (.ok (jpegSib pd folder name, .path), fs, 0)) ∧
    (pathExists fs (jpgSib pd folder name) = false →
      pathExists fs (jpegSib pd folder name) = false →
      isNonEmptyFile fs (fullCacheP pd cf folder name) = false →
      o.workerOk = false →
      (resolveImageSource pd cf o fs folder name =
        dngFallback o (purgeEmpty fs (fullCacheP pd cf folder name))
          (fullCacheP pd cf folder name) 1 ∧
       (o.dngFallbackOk = true → 0 < o.dngFallbackSize →
        (resolveImageSource pd cf o fs folder name).1 =
          .ok (fullCacheP pd cf folder name, .path)))) := by
  refine ⟨?_, ?_, ?_⟩
  · intro hj
    unfold resolveImageSource
    rw [hd]
    rw [if_neg (by decide), if_neg (by simp), if_pos hj]
  · intro hj hj2
    unfold resolveImageSource
    rw [hd]
    rw [if_neg (by decide), if_neg (by simp), if_neg (by simp [hj]), if_pos hj2]
  · intro hj hj2 hfc hwk
    have heq : resolveImageSource pd cf o fs folder name =
        dngFallback o (purgeEmpty fs (fullCacheP pd cf folder name))
          (fullCacheP pd cf folder name) 1 := by
      unfold resolveImageSource
      rw [hd]
      rw [if_neg (by decide), if_neg (by simp), if_neg (by simp [hj]), if_neg (by simp [hj2]),
        if_neg (by simp [hfc])]
      unfold dngGenerate
      rw [if_pos (by simp [hwk])]
    refine ⟨heq, ?_⟩
    intro hfb hsz
    rw [heq]
    unfold dngFallback
    rw [if_neg (by simp [hfb]), if_pos (by rw [isNonEmptyFile_fsSet_self]; simpa using hsz)]

theorem claim_C8_dng_resolution_witness :
    resolveImageSource "P" "C"
      ⟨false, false, 0, false, false, 0, true, 7, false, false, false, 0, false, 0, false, 0⟩
      (fun p => if p = "P/F/a.dng" then some ⟨100, false, false⟩
        else if p = "P/F/a.jpg" then some ⟨50, true, false⟩ else none)
      "F" "a.dng" = (.ok ("P/F/a.jpg", .path),
        (fun p => if p = "P/F/a.dng" then some ⟨100, false, false⟩
          else if p = "P/F/a.jpg" then some ⟨50, true, false⟩ else none), 0) := by
  have h := (claim_C8_dng_resolution "P" "C"
    ⟨false, false, 0, false, false, 0, true, 7, false, false, false, 0, false, 0, false, 0⟩
    (fun p => if p = "P/F/a.dng" then some ⟨100, false, false⟩
      else if p = "P/F/a.jpg" then some ⟨50, true, false⟩ else none)
    "F" "a.dng" (by decide)).1 (by decide)
  have hsib : jpgSib "P" "F" "a.dng" = "P/F/a.jpg" := by decide
  rw [h, hsib]

/-- C5 as stated is false at this input: the image-serving route's cached-file
check returns a path whose file has size zero instead of treating it as
absent. -/
theorem claim_C5_counterexample :
    apiImageCachedResponse
        (fun p => if p = "P/F/C/a_full.jpg" then some ⟨0, true, false⟩ else none)
        "P/F/C/a_full.jpg" = some "P/F/C/a_full.jpg" ∧
    (fun p => if p = "P/F/C/a_full.jpg" then some (⟨0, true, false⟩ : FileInfo) else none)
        "P/F/C/a_full.jpg" = some ⟨0, true, false⟩ := by
  constructor
  · rfl
  · rfl

theorem isNonEmptySize_iff (x : Option Nat) :
    isNonEmptySize x = true ↔ ∃ n, x = some n ∧ 0 < n := by
  cases x with
  | none => simp [isNonEmptySize]
  | some n => simp [isNonEmptySize]

theorem deleteIfZeroSize_ne_zero (x : Option Nat) : deleteIfZeroSize x ≠ some 0 := by
  match x with
  | none => simp [deleteIfZeroSize]
  | some 0 => simp [deleteIfZeroSize]
  | some (n + 1) => simp [deleteIfZeroSize]

theorem smallJpegShortcut_nonEmpty {fs : FS} {absOriginal name : String} {w : Option Nat}
    (h : smallJpegShortcut fs absOriginal name w = true) :
    isNonEmptyFile fs absOriginal = true := by
  unfold smallJpegShortcut at h
  unfold isNonEmptyFile
  rcases hfs : fs absOriginal with _ | fi
  · rw [hfs] at h
    simp at h
  · rw [hfs] at h
    simp only [Bool.and_eq_true, decide_eq_true_eq] at h
    simpa using h.2.1.1

theorem thumbLoop_some (o : Nat → Except JsError Nat) (fs : FS) (T : String) :
    ∀ fuel attempt p, (thumbLoop o fs T attempt fuel).1 = some p →
      p = T ∧ isNonEmptyFile (thumbLoop o fs T attempt fuel).2.1 T = true ∧
        1 ≤ (thumbLoop o fs T attempt fuel).2.2 := by
  intro fuel
  induction fuel with
  | zero =>
    intro attempt p h
    simp [thumbLoop] at h
  | succ n ih =>
    intro attempt p h
    unfold thumbLoop at h ⊢
    split at h
    · rename_i k hk
      split at h
      · exact absurd h (by simp)
      · rename_i hnz
        rw [if_neg hnz]
        simp only [Option.some.injEq] at h
        refine ⟨h.symm, ?_, le_refl 1⟩
        rw [isNonEmptyFile_fsSet_self]
        simpa using Nat.pos_of_ne_zero hnz
    · rename_i e he
      split at h
      · exact absurd h (by simp)
      · rename_i hcond
        rw [if_neg hcond]
        obtain ⟨h1, h2, h3⟩ := ih (attempt + 1) p h
        exact ⟨h1, h2, Nat.succ_le_succ (Nat.zero_le _)⟩

/-- C5 (amended): the three preprocessor operations treat zero-byte cache
files as absent and never return a path whose file has size zero —
`ensureImageVariant` and `ensureVideoThumbnail` only return paths whose file
is non-empty (and a zero-byte thumbnail is deleted and regenerated, never
returned), and `ensureVideoTranscode` never leaves a zero-byte output and
only returns the output path when it is non-empty; the image-serving route's
cached-file check, however, serves an existing zero-byte cache file as-is
(see the counterexample). -/
theorem claim_C5_zero_byte_policy (pd cf : String) (o : ImgOracle)
    (ot : Nat → Except JsError Nat) (fs : FS) (folder name T : String)
    (widthInt : Option Nat) (s : VtIn) (p p2 : String)
    (himg : (ensureImageVariant pd cf o fs folder name widthInt).1 = .ok p)
    (hth : (ensureVideoThumbnail ot fs T).1 = some p2) :
    isNonEmptyFile (ensureImageVariant pd cf o fs folder name widthInt).2.1 p = true ∧
    (p2 = T ∧ isNonEmptyFile (ensureVideoThumbnail ot fs T).2.1 T = true) ∧
    (fs T = some ⟨0, true, false⟩ → 1 ≤ (ensureVideoThumbnail ot fs T).2.2) ∧
    (ensureVideoTranscode s).2.2 ≠ some 0 ∧
    ((ensureVideoTranscode s).1 = true →
      ∃ n, (ensureVideoTranscode s).2.2 = some n ∧ 0 < n) := by
  refine ⟨?_, ?_, ?_, ?_, ?_⟩
  · obtain ⟨hA, hcase⟩ := ensure_post pd cf o fs folder name widthInt himg
    rcases hcase with ⟨hshort, he, hp⟩ | ⟨hshort, hp, hcache, hdngf⟩
    · rw [he]
      simp only
      rw [hp]
      exact smallJpegShortcut_nonEmpty hshort
    · exact hcache
  · unfold ensureVideoThumbnail at hth ⊢
    split at hth
    · rename_i hc
      rw [if_pos hc]
      simp only [Option.some.injEq] at hth
      exact ⟨hth.symm, hc⟩
    · rename_i hc
      rw [if_neg hc]
      obtain ⟨h1, h2, h3⟩ := thumbLoop_some ot _ T 3 1 p2 hth
      exact ⟨h1, h2⟩
  · intro hzero
    unfold ensureVideoThumbnail at hth ⊢
    have hc : isNonEmptyFile fs T = false := by
      unfold isNonEmptyFile
      rw [hzero]
      simp
    rw [if_neg (by simp [hc])] at hth ⊢
    exact (thumbLoop_some ot _ T 3 1 p2 hth).2.2
  · unfold ensureVideoTranscode
    split
    · rename_i hne
      intro hcon
      have hcon2 : s.outSize = some 0 := hcon
      rw [hcon2] at hne
      simp [isNonEmptySize] at hne
    · repeat' split
      all_goals
        first
          | exact deleteIfZeroSize_ne_zero s.outSize
          | simp
  · intro hres
    unfold ensureVideoTranscode at hres ⊢
    split at hres
    · rename_i hc
      obtain ⟨n, hn, hpos⟩ := (isNonEmptySize_iff s.outSize).mp hc
      rw [if_pos hc, hn]
      exact ⟨n, rfl, hpos⟩
    · rename_i hc
      rw [if_neg hc]
      split at hres
      · exact absurd hres (by simp)
      · rename_i h2
        rw [if_neg h2]
        split at hres
        · exact absurd hres (by simp)
        · rename_i h3
          rw [if_neg h3]
          split at hres
          · exact absurd hres (by simp)
          · rename_i h4
            rw [if_neg h4]
            split at hres
            · exact absurd hres (by simp)
            · rename_i h5
              rw [if_neg h5]
              split at hres
              · exact absurd hres (by simp)
              · rename_i h6
                rw [if_neg h6]
                split at hres
                · exact absurd hres (by simp)
                · rename_i h7
                  rw [if_neg h7]
                  split at hres
                  · exact absurd hres (by simp)
                  · rename_i h8
                    rw [if_neg h8]
                    split at hres
                    · exact absurd hres (by simp)
                    · exact absurd hres (by simp)
                    · rename_i t ht
                      exact ⟨t + 1, rfl, by omega⟩

theorem claim_C5_zero_byte_policy_witness :
    isNonEmptyFile (ensureImageVariant "Q" "D"
        ⟨true, true, 1, true, true, 1, true, 1, true, false, true, 1, true, 1, true, 7⟩
        (fun p => if p = "Q/G/b.png" then some ⟨100, false, false⟩ else none)
        "G" "b.png" none).2.1 "Q/G/D/b_full.jpg" = true ∧
    (("Q/G/v1.jpg" : String) = "Q/G/v1.jpg" ∧
      isNonEmptyFile (ensureVideoThumbnail (fun _ => .ok 5)
        (fun p => if p = "Q/G/b.png" then some ⟨100, false, false⟩ else none)
        "Q/G/v1.jpg").2.1 "Q/G/v1.jpg" = true) ∧
    ((fun p => if p = "Q/G/b.png" then some (⟨100, false, false⟩ : FileInfo) else none)
        "Q/G/v1.jpg" = some ⟨0, true, false⟩ →
      1 ≤ (ensureVideoThumbnail (fun _ => .ok 5)
        (fun p => if p = "Q/G/b.png" then some ⟨100, false, false⟩ else none)
        "Q/G/v1.jpg").2.2) ∧
    (ensureVideoTranscode
      ⟨some 3, false, none, none, none, false, none, 0, true, true, none⟩).2.2 ≠ some 0 ∧
    ((ensureVideoTranscode
        ⟨some 3, false, none, none, none, false, none, 0, true, true, none⟩).1 = true →
      ∃ n, (ensureVideoTranscode
        ⟨some 3, false, none, none, none, false, none, 0, true, true, none⟩).2.2 =
          some n ∧ 0 < n) :=
  claim_C5_zero_byte_policy "Q" "D"
    ⟨true, true, 1, true, true, 1, true, 1, true, false, true, 1, true, 1, true, 7⟩
    (fun _ => .ok 5)
    (fun p => if p = "Q/G/b.png" then some ⟨100, false, false⟩ else none)
    "G" "b.png" "Q/G/v1.jpg" none
    ⟨some 3, false, none, none, none, false, none, 0, true, true, none⟩
    "Q/G/D/b_full.jpg" "Q/G/v1.jpg" rfl rfl

end PicView

